/-
  Verification of the Anthropic↔Gemini bridge service (claude-relay-service).

  Shallow embedding of the core algorithms:
  * the model-level cooldown gate of the Antigravity transport
    (src/services/antigravityClient.js),
  * the thinking-budget normalization of outbound envelopes,
  * the non-streaming stop_reason resolution,
  * the tool-call argument remapping,
  * the tool-result sanitizer for the size-constrained vendor,
  * the signature cache (three-tier + legacy surface),
  * the Anthropic message normalizer,
  * the streaming SSE translator state machine.

  JavaScript Maps are modelled as association lists preserving insertion
  order (set replaces in place, delete removes); machine integers and
  timestamps are Lean Int; platform builtins (crypto hashes, JSON.parse)
  are taken as parameters.
-/
import Mathlib

namespace Bridge

/-! ## JS `Map` model: insertion-ordered association lists -/

/-- `Map.get(k)`: value of the first (unique) binding of `k`. -/
def mapGet {α : Type} (m : List (String × α)) (k : String) : Option α :=
  (m.find? (fun kv => kv.1 = k)).map (·.2)

/-- `Map.set(k, v)`: replace in place when the key exists, else append. -/
def mapSet {α : Type} (m : List (String × α)) (k : String) (v : α) : List (String × α) :=
  match m with
  | [] => [(k, v)]
  | kv :: rest => if kv.1 = k then (k, v) :: rest else kv :: mapSet rest k v

/-- `Map.delete(k)`. -/
def mapDelete {α : Type} (m : List (String × α)) (k : String) : List (String × α) :=
  m.filter (fun kv => kv.1 ≠ k)

theorem mapGet_mapDelete_self {α : Type} (m : List (String × α)) (k : String) :
    mapGet (mapDelete m k) k = none := by
  induction m with
  | nil => rfl
  | cons kv rest ih =>
    by_cases h : kv.1 = k
    · simp only [mapDelete, List.filter, h, decide_not] at ih ⊢
      simp only [decide_True, Bool.not_true] at ih ⊢
      exact ih
    · have hstep : mapDelete (kv :: rest) k = kv :: mapDelete rest k := by
        simp [mapDelete, h]
      rw [hstep]
      simpa [mapGet, List.find?, h] using ih

theorem mapGet_mapSet_self {α : Type} (m : List (String × α)) (k : String) (v : α) :
    mapGet (mapSet m k v) k = some v := by
  induction m with
  | nil => simp [mapSet, mapGet, List.find?]
  | cons kv rest ih =>
    by_cases h : kv.1 = k
    · simp [mapSet, mapGet, List.find?, h]
    · simpa [mapSet, mapGet, List.find?, h] using ih

/-! ## Character-level string primitives

JS string methods modelled over the character list so that concrete
evaluation reduces inside the kernel. -/

/-- JS `String.prototype.trim()`. -/
def trimChars (s : String) : String :=
  ⟨((s.data.dropWhile Char.isWhitespace).reverse.dropWhile Char.isWhitespace).reverse⟩

/-- JS `String.prototype.toUpperCase()` (ASCII view). -/
def toUpperChars (s : String) : String := ⟨s.data.map Char.toUpper⟩

/-- JS `String.prototype.toLowerCase()` (ASCII view). -/
def toLowerChars (s : String) : String := ⟨s.data.map Char.toLower⟩

/-- JS `String.prototype.startsWith(p)`. -/
def startsWithChars (s p : String) : Bool := p.data.isPrefixOf s.data

/-! ## Antigravity transport: model-level cooldown (antigravityClient.js) -/

/-- Entry of the process-wide `modelUnavailableCooldowns` map. -/
structure CooldownEntry where
  untilMs : Int
  reason : String
  deriving DecidableEq, Repr

abbrev CooldownMap := List (String × CooldownEntry)

structure CooldownInfo where
  remainingMs : Int
  reason : String
  deriving DecidableEq, Repr

/-- `getModelCooldownInfo(model)`: reads (and expires) the cooldown entry for a
model; expired entries are deleted and reported as no cooldown.  The current
wall-clock instant `now` is explicit. -/
def getModelCooldownInfo (now : Int) (m : CooldownMap) (model : String) :
    CooldownInfo × CooldownMap :=
  let key := trimChars model
  if key = "" then (⟨0, ""⟩, m)
  else
    match mapGet m key with
    | none => (⟨0, ""⟩, m)
    | some e =>
      if e.untilMs = 0 then (⟨0, ""⟩, m)
      else
        let remaining := e.untilMs - now
        if remaining ≤ 0 then (⟨0, ""⟩, mapDelete m key)
        else (⟨remaining, e.reason⟩, m)

/-- `Math.ceil(x / 1000)` for a positive integral millisecond count. -/
def ceilDivThousand (x : Int) : Int := (x + 999) / 1000

/-- Outcome of the cooldown gate at the head of `request(...)`:
either a synthetic 429 thrown before any network activity, or the request
proceeds to the network phase. -/
inductive GateOutcome where
  | cooldown429 (retryAfterSeconds : Int) (reason : String)
  | proceed
  deriving DecidableEq, Repr

/-- The fail-fast cooldown gate of `request(...)` (lines 579–594):
consult the cooldown map; when a cooldown remains, throw a synthetic 429
whose `retry-after` header is the remaining cooldown in whole seconds
(`Math.max(1, Math.ceil(remainingMs / 1000))`); otherwise proceed. -/
def requestCooldownGate (now : Int) (m : CooldownMap) (model : String) :
    GateOutcome × CooldownMap :=
  let (info, m') := getModelCooldownInfo now m model
  if info.remainingMs > 0 then
    (.cooldown429 (max 1 (ceilDivThousand info.remainingMs)) info.reason, m')
  else (.proceed, m')

/-! ## Antigravity transport: thinking-budget normalization -/

/-- Declared thinking bounds of a model (`metadata.thinking`); a `none` bound
models a non-finite (absent) bound. -/
structure ThinkingBounds where
  min : Option Int
  max : Option Int
  deriving DecidableEq, Repr

/-- Model metadata (`getAntigravityModelMetadata`); the metadata table lives
outside the analysed sources, so it is a parameter here.
`maxCompletionTokens = some 0` models a falsy (zero) value. -/
structure AgModelMetadata where
  thinking : Option ThinkingBounds
  maxCompletionTokens : Option Int
  deriving DecidableEq, Repr

/-- `generationConfig.thinkingConfig`; `thinkingBudget = some b` models a
finite numeric budget (already truncated to an integer), `none` a non-finite
one.  `thinkingLevel` records truthiness of the field. -/
structure ThinkingCfg where
  thinkingLevel : Bool
  thinkingBudget : Option Int
  deriving DecidableEq, Repr

structure GenCfg where
  maxOutputTokens : Option Int
  thinkingConfig : Option ThinkingCfg
  deriving DecidableEq, Repr

/-- JS truthiness of an optional number. -/
def optIntTruthy : Option Int → Bool
  | some x => x ≠ 0
  | none => false

/-- The effective max-output resolution inside `normalizeAntigravityThinking`:
`maxOutputTokens` when truthy, else the model's `maxCompletionTokens`
(recording whether the default was substituted). -/
def effectiveMaxOutput (gc : GenCfg) (md : AgModelMetadata) : Option Int × Bool :=
  if ¬ optIntTruthy gc.maxOutputTokens ∧ optIntTruthy md.maxCompletionTokens then
    (md.maxCompletionTokens, true)
  else (gc.maxOutputTokens, false)

/-- `normalizeAntigravityThinking(model, requestPayload)` (lines 422–485),
restricted to its effect on `generationConfig`.  `metadata` is the external
model-metadata lookup result. -/
def normalizeAntigravityThinking (normalizedModel : String)
    (metadata : Option AgModelMetadata) (gc : GenCfg) : GenCfg :=
  match gc.thinkingConfig with
  | none => gc
  | some tc0 =>
    let tc :=
      if tc0.thinkingLevel ∧ ¬ startsWithChars normalizedModel "gemini-3-" then
        { tc0 with thinkingLevel := false }
      else tc0
    match metadata with
    | none => { gc with thinkingConfig := some tc }
    | some md =>
      match md.thinking with
      | none => { gc with thinkingConfig := none }
      | some tb =>
        -- the thinkingLevel deletion above does not alter thinkingBudget,
        -- so the budget is read off the incoming config
        match tc0.thinkingBudget with
        | none => { gc with thinkingConfig := some tc }
        | some budgetRaw =>
          let budget :=
            match tb.max with
            | some mx => if budgetRaw > mx then mx else budgetRaw
            | none => budgetRaw
          let em := effectiveMaxOutput gc md
          let budget2 :=
            match em.1 with
            | some emv => if emv ≠ 0 ∧ budget ≥ emv then max 0 (emv - 1) else budget
            | none => budget
          let belowMin : Bool :=
            match tb.min with
            | some mn => decide (budget2 ≥ 0) && decide (budget2 < mn)
            | none => false
          if belowMin then
            { gc with thinkingConfig := none }
          else
            let tc' := { tc with thinkingBudget := some budget2 }
            let gc' := { gc with thinkingConfig := some tc' }
            if em.2 then { gc' with maxOutputTokens := em.1 } else gc'

/-! ## Non-streaming stop_reason resolution (anthropicGeminiBridgeService.js) -/

/-- `mapGeminiFinishReasonToAnthropicStopReason(finishReason)`
(lines 2510–2517): `MAX_TOKENS` (case-insensitively) maps to `max_tokens`,
everything else — including an absent reason — to `end_turn`. -/
def mapGeminiFinishReasonToAnthropicStopReason (finishReason : Option String) : String :=
  let normalized := toUpperChars (finishReason.getD "")
  if normalized = "MAX_TOKENS" then "max_tokens" else "end_turn"

/-- The non-stream `stopReason` computation (lines 3161–3197): `tool_use`
whenever the converted content has a `tool_use` block, else the finish-reason
mapping.  Content is abstracted to its list of block type tags. -/
def resolveNonStreamStopReason (contentTypes : List String)
    (finishReason : Option String) : String :=
  if contentTypes.any (fun t => t = "tool_use") then "tool_use"
  else mapGeminiFinishReasonToAnthropicStopReason finishReason

/-! ## Spec-side helpers for the amended C8 claim -/

/-- The claim's "clamps the budget down to the model's declared maximum". -/
def clampToDeclaredMax (tb : ThinkingBounds) (b : Int) : Int :=
  match tb.max with
  | some mx => if b > mx then mx else b
  | none => b

/-- The claim's "reduces it to maxOutputTokens − 1 whenever it is not below
the effective maxOutputTokens". -/
def reduceBelowEffectiveMax (em : Option Int) (b : Int) : Int :=
  match em with
  | some emv => if b ≥ emv then emv - 1 else b
  | none => b

end Bridge

namespace Bridge

/-- **C9.** For every outbound request whose target model has an unexpired
model-level cooldown entry, the transport throws a synthetic 429 whose
retry-after is the remaining cooldown in whole seconds (rounded up to at
least 1) before any network attempt (the `.cooldown429` outcome is produced
by the gate that precedes the network phase); once the cooldown instant has
passed, the lookup removes the entry and the request proceeds. -/
theorem c9_cooldown_gate (now : Int) (m : CooldownMap) (model : String)
    (e : CooldownEntry)
    (hkey : trimChars model ≠ "")
    (hfound : mapGet m (trimChars model) = some e)
    (hnz : e.untilMs ≠ 0) :
    (now < e.untilMs →
      requestCooldownGate now m model =
        (.cooldown429 (max 1 (ceilDivThousand (e.untilMs - now))) e.reason, m))
    ∧ (e.untilMs ≤ now →
      requestCooldownGate now m model = (.proceed, mapDelete m (trimChars model))
        ∧ mapGet (mapDelete m (trimChars model)) (trimChars model) = none) := by
  constructor
  · intro hlt
    have hrem : ¬ (e.untilMs - now ≤ 0) := by omega
    simp [requestCooldownGate, getModelCooldownInfo, hkey, hfound, hnz, hrem]
    omega
  · intro hge
    have hrem : e.untilMs - now ≤ 0 := by omega
    constructor
    · simp [requestCooldownGate, getModelCooldownInfo, hkey, hfound, hnz, hrem]
    · exact mapGet_mapDelete_self m (trimChars model)

/-- Witness for C9: a model cooling down until t=5000 queried at t=1000 fails
fast with retry-after ⌈4000ms⌉ = 4s; queried at t=6000 the entry is removed
and the request proceeds. -/
theorem c9_cooldown_gate_witness :
    requestCooldownGate 1000 [("m1", ⟨5000, "MODEL_CAPACITY_EXHAUSTED"⟩)] "m1"
      = (.cooldown429 4 "MODEL_CAPACITY_EXHAUSTED",
         [("m1", ⟨5000, "MODEL_CAPACITY_EXHAUSTED"⟩)])
    ∧ requestCooldownGate 6000 [("m1", ⟨5000, "MODEL_CAPACITY_EXHAUSTED"⟩)] "m1"
      = (.proceed, []) := by
  constructor
  · have h := (c9_cooldown_gate 1000 [("m1", ⟨5000, "MODEL_CAPACITY_EXHAUSTED"⟩)] "m1"
      ⟨5000, "MODEL_CAPACITY_EXHAUSTED"⟩ (by decide) (by decide) (by decide)).1 (by decide)
    rw [h]
    decide
  · have h := ((c9_cooldown_gate 6000 [("m1", ⟨5000, "MODEL_CAPACITY_EXHAUSTED"⟩)] "m1"
      ⟨5000, "MODEL_CAPACITY_EXHAUSTED"⟩ (by decide) (by decide) (by decide)).2 (by decide)).1
    rw [h]
    decide

/-- **C8 counterexample.** A thinking-capable model declaring min=128,
max=32768 receives a finite thinkingBudget of −5 with maxOutputTokens 4096:
the resulting budget −5 is below the declared minimum 128, yet
`normalizeAntigravityThinking` keeps `thinkingConfig` (with budget −5) instead
of removing it — the removal check requires `budget >= 0`. -/
theorem c8_counterexample :
    (normalizeAntigravityThinking "claude-x"
        (some ⟨some ⟨some 128, some 32768⟩, some 8192⟩)
        ⟨some 4096, some ⟨false, some (-5)⟩⟩).thinkingConfig
      = some ⟨false, some (-5)⟩
    ∧ (-5 : Int) < 128 := by
  constructor
  · decide
  · decide

/-- **C8 (amended).** For every outbound envelope with a finite
`thinkingConfig.thinkingBudget` for a thinking-capable model whose effective
maxOutputTokens (when resolved) is positive: the budget is clamped down to the
declared maximum, then reduced to maxOutputTokens − 1 whenever it is not below
the effective maxOutputTokens, and `thinkingConfig` is removed exactly when the
resulting budget is **non-negative** and below the declared minimum; otherwise
the clamped budget is what is sent (a negative resulting budget survives
unclamped). -/
theorem c8_thinking_budget_amended (model : String) (md : AgModelMetadata)
    (tb : ThinkingBounds) (gc : GenCfg) (tc : ThinkingCfg) (b : Int)
    (htc : gc.thinkingConfig = some tc)
    (hb : tc.thinkingBudget = some b)
    (hthink : md.thinking = some tb)
    (hpos : ∀ emv, (effectiveMaxOutput gc md).1 = some emv → 0 < emv) :
    (∀ mn, tb.min = some mn →
      0 ≤ reduceBelowEffectiveMax (effectiveMaxOutput gc md).1 (clampToDeclaredMax tb b) →
      reduceBelowEffectiveMax (effectiveMaxOutput gc md).1 (clampToDeclaredMax tb b) < mn →
      normalizeAntigravityThinking model (some md) gc = { gc with thinkingConfig := none })
    ∧ ((match tb.min with
        | some mn =>
          ¬ (0 ≤ reduceBelowEffectiveMax (effectiveMaxOutput gc md).1 (clampToDeclaredMax tb b)
             ∧ reduceBelowEffectiveMax (effectiveMaxOutput gc md).1 (clampToDeclaredMax tb b) < mn)
        | none => True) →
      ∃ tc', (normalizeAntigravityThinking model (some md) gc).thinkingConfig = some tc'
        ∧ tc'.thinkingBudget =
            some (reduceBelowEffectiveMax (effectiveMaxOutput gc md).1 (clampToDeclaredMax tb b)))
    ∧ (∀ mx, tb.max = some mx → 0 ≤ mx →
        reduceBelowEffectiveMax (effectiveMaxOutput gc md).1 (clampToDeclaredMax tb b) ≤ mx)
    ∧ (∀ emv, (effectiveMaxOutput gc md).1 = some emv →
        reduceBelowEffectiveMax (effectiveMaxOutput gc md).1 (clampToDeclaredMax tb b) < emv) := by
  have hb2 :
      (match (effectiveMaxOutput gc md).1 with
        | some emv => if emv ≠ 0 ∧ clampToDeclaredMax tb b ≥ emv
            then max 0 (emv - 1) else clampToDeclaredMax tb b
        | none => clampToDeclaredMax tb b) =
        reduceBelowEffectiveMax (effectiveMaxOutput gc md).1 (clampToDeclaredMax tb b) := by
    cases hem1 : (effectiveMaxOutput gc md).1 with
    | none => simp [reduceBelowEffectiveMax]
    | some emv =>
      have h0 : 0 < emv := hpos emv hem1
      have hne : emv ≠ 0 := by omega
      by_cases hc : clampToDeclaredMax tb b ≥ emv
      · have hm : max 0 (emv - 1) = emv - 1 := by omega
        simp only [reduceBelowEffectiveMax]
        rw [if_pos (And.intro hne hc), if_pos hc, hm]
      · simp only [reduceBelowEffectiveMax]
        rw [if_neg (fun hcc => hc hcc.2), if_neg hc]
  have hred :
      normalizeAntigravityThinking model (some md) gc =
        (let tcL :=
          if tc.thinkingLevel ∧ ¬ startsWithChars model "gemini-3-" then
            { tc with thinkingLevel := false }
          else tc
        let b2 := reduceBelowEffectiveMax (effectiveMaxOutput gc md).1 (clampToDeclaredMax tb b)
        let belowMin : Bool :=
          match tb.min with
          | some mn => decide (b2 ≥ 0) && decide (b2 < mn)
          | none => false
        if belowMin then { gc with thinkingConfig := none }
        else
          let gc' := { gc with thinkingConfig := some { tcL with thinkingBudget := some b2 } }
          if (effectiveMaxOutput gc md).2 then
            { gc' with maxOutputTokens := (effectiveMaxOutput gc md).1 }
          else gc') := by
    simp only [normalizeAntigravityThinking, htc, hb, hthink]
    rw [show (match tb.max with
        | some mx => if b > mx then mx else b
        | none => b) = clampToDeclaredMax tb b from rfl]
    rw [hb2]
  rw [hred]
  refine ⟨?_, ?_, ?_, ?_⟩
  · intro mn hmn hge hlt
    have hcond :
        (match tb.min with
          | some mn => decide (reduceBelowEffectiveMax (effectiveMaxOutput gc md).1
                (clampToDeclaredMax tb b) ≥ 0)
              && decide (reduceBelowEffectiveMax (effectiveMaxOutput gc md).1
                (clampToDeclaredMax tb b) < mn)
          | none => false) = true := by
      rw [hmn]
      simp [hge, hlt]
    simp only [hcond, if_true]
  · intro hnot
    have hcond :
        (match tb.min with
          | some mn => decide (reduceBelowEffectiveMax (effectiveMaxOutput gc md).1
                (clampToDeclaredMax tb b) ≥ 0)
              && decide (reduceBelowEffectiveMax (effectiveMaxOutput gc md).1
                (clampToDeclaredMax tb b) < mn)
          | none => false) = false := by
      cases hmn : tb.min with
      | none => rfl
      | some mn =>
        rw [hmn] at hnot
        simp only [Bool.and_eq_false_iff, decide_eq_false_iff_not]
        by_cases hge : 0 ≤ reduceBelowEffectiveMax (effectiveMaxOutput gc md).1
            (clampToDeclaredMax tb b)
        · right
          intro hlt
          exact hnot ⟨hge, hlt⟩
        · left
          simpa using hge
    simp only [hcond, Bool.false_eq_true, if_false]
    cases hsub : (effectiveMaxOutput gc md).2 with
    | false => exact ⟨_, rfl, rfl⟩
    | true => exact ⟨_, rfl, rfl⟩
  · intro mx hmx hmx0
    cases hem1 : (effectiveMaxOutput gc md).1 with
    | none =>
      simp only [reduceBelowEffectiveMax, clampToDeclaredMax, hmx]
      split <;> omega
    | some emv =>
      have h0 : 0 < emv := hpos emv hem1
      have hcl : clampToDeclaredMax tb b ≤ mx := by
        simp only [clampToDeclaredMax, hmx]
        split <;> omega
      simp only [reduceBelowEffectiveMax]
      split <;> omega
  · intro emv hem
    have h0 : 0 < emv := hpos emv hem
    rw [hem]
    simp only [reduceBelowEffectiveMax]
    split <;> omega

/-- Witness for C8 (amended): budget 50000 with declared max 32768,
maxOutputTokens 4096 → sent budget 4095. -/
theorem c8_thinking_budget_amended_witness :
    ∃ tc', (normalizeAntigravityThinking "claude-x"
        (some ⟨some ⟨some 128, some 32768⟩, some 8192⟩)
        ⟨some 4096, some ⟨false, some 50000⟩⟩).thinkingConfig = some tc'
      ∧ tc'.thinkingBudget = some 4095 := by
  have h := (c8_thinking_budget_amended "claude-x"
      ⟨some ⟨some 128, some 32768⟩, some 8192⟩ ⟨some 128, some 32768⟩
      ⟨some 4096, some ⟨false, some 50000⟩⟩ ⟨false, some 50000⟩ 50000
      rfl rfl rfl (by intro emv hemv; simp [effectiveMaxOutput, optIntTruthy] at hemv; omega)).2.1
  have h2 := h (by decide)
  obtain ⟨tc', h3, h4⟩ := h2
  refine ⟨tc', h3, ?_⟩
  rw [h4]
  decide

/-- **C10.** Non-streaming stop_reason priority: `tool_use` whenever the
converted content has a tool_use block regardless of finishReason; otherwise
`max_tokens` exactly when finishReason equals `MAX_TOKENS` case-insensitively;
`end_turn` for every other value including an absent finishReason. -/
theorem c10_stop_reason_priority (contentTypes : List String) (fr : Option String) :
    ("tool_use" ∈ contentTypes → resolveNonStreamStopReason contentTypes fr = "tool_use")
    ∧ ("tool_use" ∉ contentTypes →
        (resolveNonStreamStopReason contentTypes fr = "max_tokens"
          ↔ toUpperChars (fr.getD "") = "MAX_TOKENS"))
    ∧ ("tool_use" ∉ contentTypes → toUpperChars (fr.getD "") ≠ "MAX_TOKENS" →
        resolveNonStreamStopReason contentTypes fr = "end_turn") := by
  have hany : contentTypes.any (fun t => t = "tool_use") = true ↔ "tool_use" ∈ contentTypes := by
    simp [List.any_eq_true]
  refine ⟨?_, ?_, ?_⟩
  · intro hmem
    simp [resolveNonStreamStopReason, hany.mpr hmem]
  · intro hmem
    have hf : contentTypes.any (fun t => t = "tool_use") = false := by
      by_contra h
      exact hmem (hany.mp (by simpa using h))
    by_cases hmx : toUpperChars (fr.getD "") = "MAX_TOKENS"
    · simp [resolveNonStreamStopReason, hf, mapGeminiFinishReasonToAnthropicStopReason, hmx]
    · simp [resolveNonStreamStopReason, hf, mapGeminiFinishReasonToAnthropicStopReason, hmx]
  · intro hmem hmx
    have hf : contentTypes.any (fun t => t = "tool_use") = false := by
      by_contra h
      exact hmem (hany.mp (by simpa using h))
    simp [resolveNonStreamStopReason, hf, mapGeminiFinishReasonToAnthropicStopReason, hmx]

/-- Witness for C10: tool_use wins over MAX_TOKENS; lowercase `max_tokens`
maps to `max_tokens`; SAFETY and an absent finishReason map to `end_turn`. -/
theorem c10_stop_reason_priority_witness :
    resolveNonStreamStopReason ["text", "tool_use"] (some "MAX_TOKENS") = "tool_use"
    ∧ resolveNonStreamStopReason ["text"] (some "max_tokens") = "max_tokens"
    ∧ resolveNonStreamStopReason ["text"] (some "SAFETY") = "end_turn"
    ∧ resolveNonStreamStopReason [] none = "end_turn" := by
  refine ⟨?_, ?_, ?_, ?_⟩
  · exact (c10_stop_reason_priority ["text", "tool_use"] (some "MAX_TOKENS")).1 (by decide)
  · exact ((c10_stop_reason_priority ["text"] (some "max_tokens")).2.1 (by decide)).mpr (by decide)
  · exact (c10_stop_reason_priority ["text"] (some "SAFETY")).2.2 (by decide) (by decide)
  · exact (c10_stop_reason_priority [] none).2.2 (by decide) (by decide)

end Bridge

namespace Bridge

/-! ## JSON value model (for tool-call arguments and tool inputs) -/

/-- A JSON value as manipulated by the bridge.  Objects are
insertion-ordered (String × Json) lists, mirroring JS objects. -/
inductive Json where
  | null
  | bool (b : Bool)
  | num (n : Int)
  | str (s : String)
  | arr (xs : List Json)
  | obj (fields : List (String × Json))

abbrev JObj := List (String × Json)

/-- JS truthiness of a JSON value (`[]` and `{}` are truthy). -/
def jsTruthy : Json → Bool
  | .null => false
  | .bool b => b
  | .num n => n ≠ 0
  | .str s => s ≠ ""
  | .arr _ => true
  | .obj _ => true

/-- Truthiness of a (possibly absent) object property. -/
def jsTruthyOpt : Option Json → Bool
  | some v => jsTruthy v
  | none => false

/-- `JSON.stringify` escaping for one character (common escapes; other
control characters do not occur in the analysed behaviours). -/
def jsonEscapeChar (c : Char) : String :=
  if c = '"' then "\\\"" else if c = '\\' then "\\\\"
  else if c = '\n' then "\\n" else if c = '\t' then "\\t"
  else if c = '\r' then "\\r"
  else String.singleton c

/-- `JSON.stringify` of a string. -/
def jsonQuote (s : String) : String :=
  "\"" ++ String.join (s.data.map jsonEscapeChar) ++ "\""

/-- Lexicographic code-point comparison (JS string `<=` over code units). -/
def charListLe : List Char → List Char → Bool
  | [], _ => true
  | _ :: _, [] => false
  | a :: as, b :: bs =>
    if a < b then true
    else if b < a then false
    else charListLe as bs

def strLe (a b : String) : Bool := charListLe a.data b.data

/-- Stable insertion of a rendered field by raw key (ascending, stable —
mirrors the JS stable `Array.prototype.sort`). -/
def insertPairByKey (p : String × String) :
    List (String × String) → List (String × String)
  | [] => [p]
  | h :: t => if strLe h.1 p.1 then h :: insertPairByKey p t else p :: h :: t

def sortPairsByKey : List (String × String) → List (String × String)
  | [] => []
  | h :: t => insertPairByKey h (sortPairsByKey t)

def joinComma : List String → String
  | [] => ""
  | [x] => x
  | x :: y :: xs => x ++ "," ++ joinComma (y :: xs)

mutual
/-- `stableJsonStringify(value)` (lines 2530–2543): JSON rendering with
object keys in ascending order.  Fields are rendered first and then sorted
by their raw key, which yields the sorted-keys output of the source. -/
def stableJsonStringify : Json → String
  | .null => "null"
  | .bool b => cond b "true" "false"
  | .num n => toString n
  | .str s => jsonQuote s
  | .arr xs => "[" ++ joinComma (sjsList xs) ++ "]"
  | .obj fields =>
    "\x7b" ++ joinComma ((sortPairsByKey (sjsFields fields)).map (·.2)) ++ "\x7d"

def sjsList : List Json → List String
  | [] => []
  | x :: xs => stableJsonStringify x :: sjsList xs

def sjsFields : List (String × Json) → List (String × String)
  | [] => []
  | (k, v) :: xs => (k, jsonQuote k ++ ":" ++ stableJsonStringify v) :: sjsFields xs
end

/-! ## Streaming tool-argument remapping (`remapFunctionCallArgs`, 680–770) -/

/-- `remapFunctionCallArgs(name, args)`: fixes tool-call argument names the
backend gets wrong.  `EnterPlanMode` loses all arguments; Grep-family tools
remap `description`/`query` → `pattern` and `paths` → `path` with default
`"."`; `Read` remaps `path` → `file_path`; `LS` defaults `path`; other tools
get a generic single-element `paths[0]` → `path` fix. -/
def remapFunctionCallArgs (name : String) (args : JObj) : JObj :=
  let nameLower := toLowerChars name
  if nameLower = "enterplanmode" then []
  else if nameLower = "grep" ∨ nameLower = "search" ∨ nameLower = "glob"
      ∨ nameLower = "search_code_definitions" ∨ nameLower = "search_code_snippets" then
    let args :=
      if jsTruthyOpt (mapGet args "description") ∧ ¬ jsTruthyOpt (mapGet args "pattern") then
        mapDelete (mapSet args "pattern" ((mapGet args "description").getD .null)) "description"
      else args
    let args :=
      if jsTruthyOpt (mapGet args "query") ∧ ¬ jsTruthyOpt (mapGet args "pattern") then
        mapDelete (mapSet args "pattern" ((mapGet args "query").getD .null)) "query"
      else args
    if ¬ jsTruthyOpt (mapGet args "path") then
      if jsTruthyOpt (mapGet args "paths") then
        let pathStr :=
          match (mapGet args "paths").getD .null with
          | .arr (x :: _) => match x with | .str s => s | _ => "."
          | .arr [] => "."
          | .str s => s
          | _ => "."
        mapDelete (mapSet args "path" (.str pathStr)) "paths"
      else mapSet args "path" (.str ".")
    else args
  else if nameLower = "read" then
    if jsTruthyOpt (mapGet args "path") ∧ ¬ jsTruthyOpt (mapGet args "file_path") then
      mapDelete (mapSet args "file_path" ((mapGet args "path").getD .null)) "path"
    else args
  else if nameLower = "ls" then
    if ¬ jsTruthyOpt (mapGet args "path") then mapSet args "path" (.str ".") else args
  else
    if ¬ jsTruthyOpt (mapGet args "path") ∧ jsTruthyOpt (mapGet args "paths") then
      match (mapGet args "paths").getD .null with
      | .arr [.str s] => mapDelete (mapSet args "path" (.str s)) "paths"
      | .arr [] => args
      | _ => args
    else args

/-! ## Tool-result sanitization for the size-constrained vendor (1314–1370) -/

/-- An Anthropic tool_result content block as inspected by the sanitizer.
`extra` stands for all further fields an object spread would carry along. -/
structure TRBlock where
  btype : String
  text : Option String
  sourceType : Option String
  sourceData : Option String
  extra : Nat
  deriving DecidableEq, Repr

def MAX_ANTIGRAVITY_TOOL_RESULT_CHARS : Int := 200000

/-- The sanitizer's image test: `type === 'image' && source.type === 'base64'
&& typeof source.data === 'string'`. -/
def isBase64Image (b : TRBlock) : Bool :=
  b.btype = "image" ∧ b.sourceType = some "base64" ∧ b.sourceData.isSome

def antigravityImageNote : String :=
  "[image omitted to fit Antigravity prompt limits; use the file path in the previous text block]"

def imageNoteBlock : TRBlock := ⟨"text", some antigravityImageNote, none, none, 0⟩

/-- The scanning loop of `sanitizeToolResultBlocksForAntigravity`: walks the
blocks with a running character budget, skipping base64 images (recording the
removal), compacting text blocks, and carrying other blocks through at a
flat cost of 100; `break` abandons the unscanned tail.  Returns the cleaned
list and the removed-image flag. -/
def sanitizeToolResultAux (compact : String → Int → String) :
    List (Option TRBlock) → Int → Bool → List TRBlock × Bool
  | [], _, removed => ([], removed)
  | none :: rest, usedChars, removed => sanitizeToolResultAux compact rest usedChars removed
  | some b :: rest, usedChars, removed =>
    if isBase64Image b then sanitizeToolResultAux compact rest usedChars true
    else if b.btype = "text" ∧ b.text.isSome then
      let remaining := MAX_ANTIGRAVITY_TOOL_RESULT_CHARS - usedChars
      if remaining ≤ 0 then ([], removed)
      else
        let t := compact (b.text.getD "") remaining
        let res := sanitizeToolResultAux compact rest (usedChars + t.length) removed
        ({ b with text := some t } :: res.1, res.2)
    else
      if usedChars + 100 ≥ MAX_ANTIGRAVITY_TOOL_RESULT_CHARS then ([b], removed)
      else
        let res := sanitizeToolResultAux compact rest (usedChars + 100) removed
        (b :: res.1, res.2)

/-- `sanitizeToolResultBlocksForAntigravity(blocks)`: scan, then append one
explanatory text note when any base64 image was removed.  The text-compaction
pass (`compactToolResultTextForAntigravity`) is a parameter. -/
def sanitizeToolResultBlocksForAntigravity (compact : String → Int → String)
    (blocks : List (Option TRBlock)) : List TRBlock :=
  let res := sanitizeToolResultAux compact blocks 0 false
  if res.2 then res.1 ++ [imageNoteBlock] else res.1

/-! ## Signature cache (src/utils — three-tier + legacy surface) -/

def SIGNATURE_CACHE_TTL_MS : Int := 2 * 60 * 60 * 1000
def MIN_SIGNATURE_LENGTH : Nat := 50
def TEXT_HASH_LENGTH : Nat := 16
def SESSION_CACHE_LIMIT : Nat := 1000

structure SigEntry where
  signature : String
  timestamp : Int
  deriving DecidableEq, Repr

abbrev SigMap := List (String × SigEntry)
abbrev LegacyCache := List (String × SigMap)

/-- `isExpired(timestamp)`: `Date.now() - timestamp > TTL`. -/
def isExpired (now ts : Int) : Bool := now - ts > SIGNATURE_CACHE_TTL_MS

/-- `isValidSignature(signature)`. -/
def isValidSignature (s : String) : Bool := s.length ≥ MIN_SIGNATURE_LENGTH

/-- `hashText(text)`: 16-hex-character truncation of a SHA-256 digest; the
digest itself (a platform builtin) is the parameter `sha`. -/
def hashText (sha : String → String) (t : String) : String :=
  if t = "" then "" else (sha t).take TEXT_HASH_LENGTH

/-- Ascending stable insertion by timestamp (models the JS stable sort used
during eviction). -/
def insertByTs (kv : String × SigEntry) : SigMap → SigMap
  | [] => [kv]
  | h :: t => if h.2.timestamp ≤ kv.2.timestamp then h :: insertByTs kv t else kv :: h :: t

def sortByTs : SigMap → SigMap
  | [] => []
  | h :: t => insertByTs h (sortByTs t)

/-- `cleanupCache(cache, limit)`: when over the cap, drop expired entries,
then evict oldest-by-timestamp entries until under the cap. -/
def cleanupCache (now : Int) (cache : SigMap) (limit : Nat) : SigMap :=
  if cache.length ≤ limit then cache
  else
    let c1 := cache.filter (fun kv => ¬ isExpired now kv.2.timestamp)
    if c1.length ≤ limit then c1
    else
      let victims := ((sortByTs c1).take (c1.length - limit)).map (·.1)
      c1.filter (fun kv => ¬ victims.contains kv.1)

/-- `cacheSessionSignature(sessionId, signature)` (lines 585–610): store the
session-latest signature when there is no live entry or the new signature is
strictly longer; then run the eviction pass. -/
def cacheSessionSignature (now : Int) (cache : SigMap)
    (sessionId signature : String) : SigMap :=
  if sessionId = "" ∨ signature = "" then cache
  else if ¬ isValidSignature signature then cache
  else
    let shouldStore :=
      match mapGet cache sessionId with
      | none => true
      | some e => isExpired now e.timestamp ∨ signature.length > e.signature.length
    if shouldStore then
      cleanupCache now (mapSet cache sessionId ⟨signature, now⟩) SESSION_CACHE_LIMIT
    else cache

/-- `getSessionSignature(sessionId)` (lines 617–637): lookup with
delete-on-expiry; returns the signature and the updated cache. -/
def getSessionSignature (now : Int) (cache : SigMap) (sessionId : String) :
    Option String × SigMap :=
  if sessionId = "" then (none, cache)
  else
    match mapGet cache sessionId with
    | none => (none, cache)
    | some e =>
      if isExpired now e.timestamp then (none, mapDelete cache sessionId)
      else (some e.signature, cache)

/-- `getCachedSignature(sessionId, thinkingText)` (lines 709–740): legacy
text-hash lookup with delete-on-expiry inside the per-session map. -/
def getCachedSignature (sha : String → String) (now : Int) (cache : LegacyCache)
    (sessionId thinkingText : String) : Option String × LegacyCache :=
  if sessionId = "" ∨ thinkingText = "" then (none, cache)
  else
    match mapGet cache sessionId with
    | none => (none, cache)
    | some sessionCache =>
      let textHash := hashText sha thinkingText
      if textHash = "" then (none, cache)
      else
        match mapGet sessionCache textHash with
        | none => (none, cache)
        | some e =>
          if isExpired now e.timestamp then
            (none, mapSet cache sessionId (mapDelete sessionCache textHash))
          else (some e.signature, cache)

end Bridge



namespace Bridge

/-! ## Map helper lemmas for the cache proofs -/

theorem mem_of_mapGet_eq_some {α : Type} {m : List (String × α)} {k : String} {v : α}
    (h : mapGet m k = some v) : (k, v) ∈ m := by
  unfold mapGet at h
  cases hf : List.find? (fun kv => kv.1 = k) m with
  | none => rw [hf] at h; simp at h
  | some kv =>
    rw [hf] at h
    have hmem := List.mem_of_find?_eq_some hf
    have hp := List.find?_some hf
    obtain ⟨a, b⟩ := kv
    simp at hp h
    subst hp
    subst h
    exact hmem

theorem mapGet_eq_of_mem_nodup {α : Type} {m : List (String × α)} {k : String} {v : α}
    (hmem : (k, v) ∈ m) (hnd : (m.map Prod.fst).Nodup) : mapGet m k = some v := by
  induction m with
  | nil => simp at hmem
  | cons kv rest ih =>
    rcases List.mem_cons.mp hmem with heq | htail
    · subst heq
      simp [mapGet, List.find?]
    · have hk : kv.1 ≠ k := by
        intro hkk
        have hkm : k ∈ rest.map Prod.fst := List.mem_map.mpr ⟨(k, v), htail, rfl⟩
        rw [List.map_cons] at hnd
        exact (List.nodup_cons.mp hnd).1 (hkk ▸ hkm)
      simp only [mapGet, List.find?]
      rw [show (decide (kv.1 = k)) = false by simp [hk]]
      exact ih htail (by
        rw [List.map_cons] at hnd
        exact (List.nodup_cons.mp hnd).2)

theorem mem_mapSet_key {α : Type} {m : List (String × α)} {k : String} {n v : α}
    (hnd : (m.map Prod.fst).Nodup) (hmem : (k, v) ∈ mapSet m k n) : v = n := by
  induction m with
  | nil => simpa [mapSet] using hmem
  | cons kv rest ih =>
    rw [List.map_cons] at hnd
    by_cases hk : kv.1 = k
    · rw [show mapSet (kv :: rest) k n = (k, n) :: rest by simp [mapSet, hk]] at hmem
      rcases List.mem_cons.mp hmem with heq | htail
      · exact congrArg Prod.snd heq
      · exfalso
        have hkm : k ∈ rest.map Prod.fst := List.mem_map.mpr ⟨(k, v), htail, rfl⟩
        exact (List.nodup_cons.mp hnd).1 (hk ▸ hkm)
    · rw [show mapSet (kv :: rest) k n = kv :: mapSet rest k n by simp [mapSet, hk]] at hmem
      rcases List.mem_cons.mp hmem with heq | htail
      · exact absurd (congrArg Prod.fst heq).symm hk
      · exact ih (List.nodup_cons.mp hnd).2 htail

theorem mapSet_keys_of_contains {α : Type} (m : List (String × α)) (k : String) (v : α)
    (hk : k ∈ m.map Prod.fst) : (mapSet m k v).map Prod.fst = m.map Prod.fst := by
  induction m with
  | nil => simp at hk
  | cons kv rest ih =>
    by_cases h : kv.1 = k
    · simp [mapSet, h]
    · rw [show mapSet (kv :: rest) k v = kv :: mapSet rest k v by simp [mapSet, h]]
      simp only [List.map_cons]
      simp only [List.map_cons, List.mem_cons] at hk
      rcases hk with heq | htail
      · exact absurd heq.symm h
      · rw [ih htail]

theorem cleanupCache_subset (now : Int) (c : SigMap) (limit : Nat) :
    ∀ kv ∈ cleanupCache now c limit, kv ∈ c := by
  intro kv h
  simp only [cleanupCache] at h
  split at h
  · exact h
  · split at h
    · exact (List.mem_filter.mp h).1
    · exact (List.mem_filter.mp (List.mem_filter.mp h).1).1

/-! ## C3: Grep argument remapping -/

/-- **C3 counterexample.** For the tool `Grep` with args `{"query":"foo"}`,
the remapped input is `{"pattern":"foo","path":"."}` — not `{"pattern":"foo"}`
as claimed: the remapper also injects the default `path: "."`. -/
theorem c3_counterexample :
    remapFunctionCallArgs "Grep" [("query", Json.str "foo")]
      = [("pattern", Json.str "foo"), ("path", Json.str ".")]
    ∧ remapFunctionCallArgs "Grep" [("query", Json.str "foo")]
      ≠ [("pattern", Json.str "foo")] := by
  refine ⟨rfl, fun h => ?_⟩
  have hlen := congrArg List.length h
  rw [show remapFunctionCallArgs "Grep" [("query", Json.str "foo")]
      = [("pattern", Json.str "foo"), ("path", Json.str ".")] from rfl] at hlen
  simp at hlen

/-! ## C4: sanitization of tool-result image blocks -/

theorem sanitizeAux_no_base64_no_note (compact : String → Int → String)
    (hc : ∀ s n, compact s n ≠ antigravityImageNote) :
    ∀ (blocks : List (Option TRBlock)) (usedChars : Int) (removed : Bool),
      (∀ b ∈ (sanitizeToolResultAux compact blocks usedChars removed).1,
        isBase64Image b = false)
      ∧ List.count imageNoteBlock
          (sanitizeToolResultAux compact blocks usedChars removed).1 = 0 := by
  intro blocks
  induction blocks with
  | nil => intro u r; simp [sanitizeToolResultAux]
  | cons hd rest ih =>
    intro u r
    cases hd with
    | none =>
      have heq : sanitizeToolResultAux compact (none :: rest) u r
          = sanitizeToolResultAux compact rest u r := by
        simp only [sanitizeToolResultAux]
      rw [heq]
      exact ih u r
    | some b =>
      by_cases h64 : isBase64Image b = true
      · have heq : sanitizeToolResultAux compact (some b :: rest) u r
            = sanitizeToolResultAux compact rest u true := by
          simp only [sanitizeToolResultAux]
          rw [if_pos h64]
        rw [heq]
        exact ih u true
      · have h64f : isBase64Image b = false := by simpa using h64
        by_cases htxt : b.btype = "text" ∧ b.text.isSome = true
        · by_cases hrem : MAX_ANTIGRAVITY_TOOL_RESULT_CHARS - u ≤ 0
          · have heq : sanitizeToolResultAux compact (some b :: rest) u r = ([], r) := by
              simp only [sanitizeToolResultAux]
              rw [if_neg h64, if_pos htxt, if_pos hrem]
            rw [heq]
            simp
          · have heq : sanitizeToolResultAux compact (some b :: rest) u r
                = ({ b with text := some (compact (b.text.getD "")
                      (MAX_ANTIGRAVITY_TOOL_RESULT_CHARS - u)) } ::
                    (sanitizeToolResultAux compact rest
                      (u + (compact (b.text.getD "")
                        (MAX_ANTIGRAVITY_TOOL_RESULT_CHARS - u)).length) r).1,
                   (sanitizeToolResultAux compact rest
                      (u + (compact (b.text.getD "")
                        (MAX_ANTIGRAVITY_TOOL_RESULT_CHARS - u)).length) r).2) := by
              simp only [sanitizeToolResultAux]
              rw [if_neg h64, if_pos htxt, if_neg hrem]
            have hupd : isBase64Image { b with
                text := some (compact (b.text.getD "")
                  (MAX_ANTIGRAVITY_TOOL_RESULT_CHARS - u)) } = false := h64f
            have hnote : ({ b with
                text := some (compact (b.text.getD "")
                  (MAX_ANTIGRAVITY_TOOL_RESULT_CHARS - u)) } : TRBlock)
                ≠ imageNoteBlock := by
              intro he
              have hh := congrArg TRBlock.text he
              simp [imageNoteBlock] at hh
              exact hc _ _ hh
            have ihx := ih (u + (compact (b.text.getD "")
              (MAX_ANTIGRAVITY_TOOL_RESULT_CHARS - u)).length) r
            rw [heq]
            constructor
            · intro x hx
              rcases List.mem_cons.mp hx with hxeq | htail
              · rw [hxeq]; exact hupd
              · exact ihx.1 x htail
            · rw [List.count_cons]
              simp [ihx.2, hnote]
        · have hnoteb : b ≠ imageNoteBlock := by
            intro he
            apply htxt
            rw [he]
            exact ⟨rfl, rfl⟩
          by_cases hcap : u + 100 ≥ MAX_ANTIGRAVITY_TOOL_RESULT_CHARS
          · have heq : sanitizeToolResultAux compact (some b :: rest) u r = ([b], r) := by
              simp only [sanitizeToolResultAux]
              rw [if_neg h64, if_neg htxt, if_pos hcap]
            rw [heq]
            constructor
            · intro x hx
              rw [List.mem_singleton.mp hx]
              exact h64f
            · rw [List.count_cons]
              simp [hnoteb]
          · have heq : sanitizeToolResultAux compact (some b :: rest) u r
                = (b :: (sanitizeToolResultAux compact rest (u + 100) r).1,
                   (sanitizeToolResultAux compact rest (u + 100) r).2) := by
              simp only [sanitizeToolResultAux]
              rw [if_neg h64, if_neg htxt, if_neg hcap]
            have ihx := ih (u + 100) r
            rw [heq]
            constructor
            · intro x hx
              rcases List.mem_cons.mp hx with hxeq | htail
              · rw [hxeq]; exact h64f
              · exact ihx.1 x htail
            · rw [List.count_cons]
              simp [ihx.2, hnoteb]

/-- **C4 counterexample.** Two base64 image blocks are removed but the
sanitized output carries exactly **one** explanatory text block, not one per
removed image as claimed. -/
theorem c4_counterexample :
    sanitizeToolResultBlocksForAntigravity (fun s _ => s)
      [some ⟨"image", none, some "base64", some "AAAA", 0⟩,
       some ⟨"image", none, some "base64", some "BBBB", 0⟩]
      = [imageNoteBlock]
    ∧ List.countP (fun ob => match ob with
        | some bb => isBase64Image bb
        | none => false)
      [some (⟨"image", none, some "base64", some "AAAA", 0⟩ : TRBlock),
       some ⟨"image", none, some "base64", some "BBBB", 0⟩] = 2
    ∧ List.count imageNoteBlock (sanitizeToolResultBlocksForAntigravity (fun s _ => s)
        [some ⟨"image", none, some "base64", some "AAAA", 0⟩,
         some ⟨"image", none, some "base64", some "BBBB", 0⟩]) ≠ 2 := by
  refine ⟨rfl, rfl, by decide⟩

/-- **C4 (amended).** For every tool_result block array passed through the
size-constrained sanitization: the output contains zero base64 image payloads,
and exactly one explanatory text block is appended when at least one base64
image was removed (zero otherwise) — a single note for all removed images
together, not one per image.  (The hypothesis rules out a text-compaction pass
that itself fabricates the note text.) -/
theorem c4_sanitize_images_amended (compact : String → Int → String)
    (blocks : List (Option TRBlock))
    (hc : ∀ s n, compact s n ≠ antigravityImageNote) :
    (∀ b ∈ sanitizeToolResultBlocksForAntigravity compact blocks,
      isBase64Image b = false)
    ∧ List.count imageNoteBlock (sanitizeToolResultBlocksForAntigravity compact blocks)
        = (if (sanitizeToolResultAux compact blocks 0 false).2 then 1 else 0) := by
  have h := sanitizeAux_no_base64_no_note compact hc blocks 0 false
  unfold sanitizeToolResultBlocksForAntigravity
  by_cases hrm : (sanitizeToolResultAux compact blocks 0 false).2
  · simp only [hrm, if_true]
    constructor
    · intro b hb
      rcases List.mem_append.mp hb with hin | hnote
      · exact h.1 b hin
      · rw [List.mem_singleton.mp hnote]
        decide
    · rw [List.count_append]
      simp [h.2]
  · simp only [hrm]
    simpa using ⟨h.1, h.2⟩

/-- Witness for C4 (amended): one base64 image in, zero base64 out and exactly
one explanatory note. -/
theorem c4_sanitize_images_amended_witness :
    List.count imageNoteBlock (sanitizeToolResultBlocksForAntigravity (fun _ _ => "")
      [some ⟨"image", none, some "base64", some "zz", 0⟩]) = 1
    ∧ (∀ b ∈ sanitizeToolResultBlocksForAntigravity (fun _ _ => "")
        [some ⟨"image", none, some "base64", some "zz", 0⟩],
        isBase64Image b = false) := by
  have h := c4_sanitize_images_amended (fun _ _ => "")
    [some ⟨"image", none, some "base64", some "zz", 0⟩]
    (by
      intro s n
      show ("" : String) ≠ antigravityImageNote
      decide)
  refine ⟨?_, h.1⟩
  rw [h.2]
  decide

/-! ## C6: expired signature-cache lookups -/

/-- **C6.** For every signature-cache entry (both the legacy
session+text-hash surface and the session-latest surface), a lookup performed
after the 2-hour TTL has elapsed returns not-found and deletes the entry, and
an immediately repeated lookup of the same key also returns not-found without
further state change. -/
theorem c6_expired_lookup (sha : String → String) (now : Int)
    (cache : LegacyCache) (lat : SigMap) (sid text : String)
    (inner : SigMap) (e elat : SigEntry)
    (hsid : sid ≠ "") (htext : text ≠ "")
    (hhash : hashText sha text ≠ "")
    (hsession : mapGet cache sid = some inner)
    (hentry : mapGet inner (hashText sha text) = some e)
    (hexp : now - e.timestamp > SIGNATURE_CACHE_TTL_MS)
    (hlat : mapGet lat sid = some elat)
    (hexp2 : now - elat.timestamp > SIGNATURE_CACHE_TTL_MS) :
    (getCachedSignature sha now cache sid text).1 = none
    ∧ mapGet ((getCachedSignature sha now cache sid text).2) sid
        = some (mapDelete inner (hashText sha text))
    ∧ mapGet (mapDelete inner (hashText sha text)) (hashText sha text) = none
    ∧ getCachedSignature sha now (getCachedSignature sha now cache sid text).2 sid text
        = (none, (getCachedSignature sha now cache sid text).2)
    ∧ (getSessionSignature now lat sid).1 = none
    ∧ mapGet (getSessionSignature now lat sid).2 sid = none
    ∧ getSessionSignature now (getSessionSignature now lat sid).2 sid
        = (none, (getSessionSignature now lat sid).2) := by
  have hguard : ¬ (sid = "" ∨ text = "") := by
    rintro (h | h)
    · exact hsid h
    · exact htext h
  have hexpb : isExpired now e.timestamp = true := by
    simp [isExpired]; exact hexp
  have hexpb2 : isExpired now elat.timestamp = true := by
    simp [isExpired]; exact hexp2
  have hfirst : getCachedSignature sha now cache sid text
      = (none, mapSet cache sid (mapDelete inner (hashText sha text))) := by
    simp [getCachedSignature, hguard, hsession, hhash, hentry, hexpb]
  have hlat1 : getSessionSignature now lat sid = (none, mapDelete lat sid) := by
    simp [getSessionSignature, hsid, hlat, hexpb2]
  refine ⟨by rw [hfirst], ?_, ?_, ?_, by rw [hlat1], ?_, ?_⟩
  · rw [hfirst]
    exact mapGet_mapSet_self cache sid (mapDelete inner (hashText sha text))
  · exact mapGet_mapDelete_self inner (hashText sha text)
  · rw [hfirst]
    simp [getCachedSignature, hguard, hhash,
      mapGet_mapSet_self cache sid (mapDelete inner (hashText sha text)),
      mapGet_mapDelete_self inner (hashText sha text)]
  · rw [hlat1]
    exact mapGet_mapDelete_self lat sid
  · rw [hlat1]
    simp [getSessionSignature, hsid, mapGet_mapDelete_self lat sid]

/-- Witness for C6 at a concrete cache state two hours and one millisecond
after the entries were stored. -/
theorem c6_expired_lookup_witness :
    (getCachedSignature (fun _ => "aaaaaaaaaaaaaaaaaaaa") 7200001
      [("s", [("aaaaaaaaaaaaaaaa", ⟨"sig-value", 0⟩)])] "s" "thought").1 = none
    ∧ (getSessionSignature 7200001 [("s", ⟨"sig-value", 0⟩)] "s").1 = none
    ∧ mapGet (getSessionSignature 7200001 [("s", ⟨"sig-value", 0⟩)] "s").2 "s" = none := by
  have h := c6_expired_lookup (fun _ => "aaaaaaaaaaaaaaaaaaaa") 7200001
    [("s", [("aaaaaaaaaaaaaaaa", ⟨"sig-value", 0⟩)])] [("s", ⟨"sig-value", 0⟩)]
    "s" "thought" [("aaaaaaaaaaaaaaaa", ⟨"sig-value", 0⟩)] ⟨"sig-value", 0⟩ ⟨"sig-value", 0⟩
    (by decide) (by decide) (by decide) (by decide) (by decide) (by decide)
    (by decide) (by decide)
  exact ⟨h.1, h.2.2.2.2.1, h.2.2.2.2.2.1⟩

/-! ## C7: session-latest signature overwrite policy -/

/-- **C7 counterexample.** An *expired* session-latest entry is overwritten
even by a strictly shorter signature: a 60-character signature stored at t=0
is replaced at t=7200001 (TTL elapsed) by a 50-character one, so the stored
length decreases across `cacheSessionSignature` calls. -/
theorem c7_counterexample :
    cacheSessionSignature 7200001
      [("s", ⟨"aaaaaaaaaaaaaaaaaaaaaaaaaaaaaaaaaaaaaaaaaaaaaaaaaaaaaaaaaaaa", 0⟩)]
      "s" "bbbbbbbbbbbbbbbbbbbbbbbbbbbbbbbbbbbbbbbbbbbbbbbbbb"
      = [("s", ⟨"bbbbbbbbbbbbbbbbbbbbbbbbbbbbbbbbbbbbbbbbbbbbbbbbbb", 7200001⟩)]
    ∧ ("bbbbbbbbbbbbbbbbbbbbbbbbbbbbbbbbbbbbbbbbbbbbbbbbbb" : String).length
      < ("aaaaaaaaaaaaaaaaaaaaaaaaaaaaaaaaaaaaaaaaaaaaaaaaaaaaaaaaaaaa" : String).length := by
  exact ⟨rfl, by decide⟩

/-- **C7 (amended).** The session-latest cache overwrites an existing
**unexpired** entry only when the new signature is strictly longer (otherwise
the cache is left untouched); consequently, while the existing entry is
unexpired, the length of the signature stored for a session never decreases
across `cacheSessionSignature` calls.  (An expired entry is overwritten
regardless of length.) -/
theorem c7_session_signature_amended (now : Int) (cache : SigMap)
    (sid sig : String) (e : SigEntry)
    (hfound : mapGet cache sid = some e)
    (hfresh : ¬ (now - e.timestamp > SIGNATURE_CACHE_TTL_MS)) :
    (sig.length ≤ e.signature.length → cacheSessionSignature now cache sid sig = cache)
    ∧ ((cache.map Prod.fst).Nodup →
        ∀ e', mapGet (cacheSessionSignature now cache sid sig) sid = some e' →
          e.signature.length ≤ e'.signature.length) := by
  have hexpb : isExpired now e.timestamp = false := by
    simp [isExpired]; omega
  constructor
  · intro hle
    by_cases hg : sid = "" ∨ sig = ""
    · simp [cacheSessionSignature, hg]
    · by_cases hv : isValidSignature sig
      · simp [cacheSessionSignature, hg, hv, hfound, hexpb, Nat.not_lt.mpr hle]
      · simp [cacheSessionSignature, hg, hv]
  · intro hnd e' hget
    by_cases hg : sid = "" ∨ sig = ""
    · rw [show cacheSessionSignature now cache sid sig = cache by
        simp [cacheSessionSignature, hg]] at hget
      rw [hget] at hfound
      cases hfound
      exact Nat.le_refl _
    · by_cases hv : isValidSignature sig
      · by_cases hlong : e.signature.length < sig.length
        · rw [show cacheSessionSignature now cache sid sig
              = cleanupCache now (mapSet cache sid ⟨sig, now⟩) SESSION_CACHE_LIMIT by
            simp [cacheSessionSignature, hg, hv, hfound, hexpb, hlong]] at hget
          have hmem := mem_of_mapGet_eq_some hget
          have hmem2 := cleanupCache_subset now (mapSet cache sid ⟨sig, now⟩)
            SESSION_CACHE_LIMIT _ hmem
          have := mem_mapSet_key hnd hmem2
          rw [this]
          exact Nat.le_of_lt hlong
        · rw [show cacheSessionSignature now cache sid sig = cache by
            simp [cacheSessionSignature, hg, hv, hfound, hexpb, hlong]] at hget
          rw [hget] at hfound
          cases hfound
          exact Nat.le_refl _
      · rw [show cacheSessionSignature now cache sid sig = cache by
          simp [cacheSessionSignature, hg, hv]] at hget
        rw [hget] at hfound
        cases hfound
        exact Nat.le_refl _

/-- Witness for C7 (amended): an unexpired 50-character entry is untouched by
an equal-length offer, and the stored length does not decrease. -/
theorem c7_session_signature_amended_witness :
    cacheSessionSignature 200
      [("s", ⟨"aaaaaaaaaaaaaaaaaaaaaaaaaaaaaaaaaaaaaaaaaaaaaaaaaa", 100⟩)]
      "s" "bbbbbbbbbbbbbbbbbbbbbbbbbbbbbbbbbbbbbbbbbbbbbbbbbb"
      = [("s", ⟨"aaaaaaaaaaaaaaaaaaaaaaaaaaaaaaaaaaaaaaaaaaaaaaaaaa", 100⟩)] :=
  (c7_session_signature_amended 200
    [("s", ⟨"aaaaaaaaaaaaaaaaaaaaaaaaaaaaaaaaaaaaaaaaaaaaaaaaaa", 100⟩)]
    "s" "bbbbbbbbbbbbbbbbbbbbbbbbbbbbbbbbbbbbbbbbbbbbbbbbbb"
    ⟨"aaaaaaaaaaaaaaaaaaaaaaaaaaaaaaaaaaaaaaaaaaaaaaaaaa", 100⟩
    (by decide) (by decide)).1 (by decide)

end Bridge

namespace Bridge

/-! ## Anthropic message normalizer (`normalizeAnthropicMessages`, 1428–1612)

Content blocks are modelled with the fields the normalizer inspects
(`type`, `text`, `cache_control.type`, `id`, `tool_use_id`, `is_error`);
`inner` carries a tool_result's nested content opaquely and `rest` stands for
any further message fields preserved by the object spreads. -/

structure APart where
  ptype : String
  text : Option String
  cacheControl : Option String
  id : Option String
  toolUseId : Option String
  isError : Bool
  inner : Option String
  deriving DecidableEq, Repr

structure AMessage where
  role : String
  content : Option (List (Option APart))
  rest : Nat
  deriving DecidableEq, Repr

def MISSING_TOOL_RESULT_TEXT : String := "[tool_result missing; tool execution interrupted]"

/-- The synthesized `tool_result` block closing an unanswered `tool_use`. -/
def synthToolResult (toolUseId : String) : APart :=
  ⟨"tool_result", none, none, none, some toolUseId, true, some MISSING_TOOL_RESULT_TEXT⟩

/-- The synthesized user message carrying one tool_result per pending id. -/
def synthToolResultMsg (pending : List String) : AMessage :=
  ⟨"user", some (pending.map (fun i => some (synthToolResult i))), 0⟩

/-- `isIgnorableTrailingText(part)`: empty or `"(no content)"` text blocks. -/
def isIgnorableTrailingText (p : APart) : Bool :=
  if p.ptype ≠ "text" then false
  else
    match p.text with
    | none => false
    | some t =>
      let trimmed := trimChars t
      if trimmed = "" ∨ trimmed = "(no content)" then true
      else if p.cacheControl = some "ephemeral" ∧ trimmed = "(no content)" then true
      else false

def isThinkingType (p : APart) : Bool :=
  p.ptype = "thinking" ∨ p.ptype = "redacted_thinking"

/-- The partition pass of `normalizeAssistantThinkingOrderForVendor`:
thinking blocks (with `cache_control` removed) on the left, every other
non-ignorable block on the right, each side in original order. -/
def normThinkGo : List APart → List APart × List APart
  | [] => ([], [])
  | p :: rest =>
    let r := normThinkGo rest
    if isThinkingType p then ({ p with cacheControl := none } :: r.1, r.2)
    else if isIgnorableTrailingText p then r
    else (r.1, p :: r.2)

/-- `normalizeAssistantThinkingOrderForVendor(parts)` (lines 1451–1477). -/
def normalizeAssistantThinkingOrderForVendor (ag : Bool) (parts : List APart) :
    List APart :=
  if ag then
    let r := normThinkGo parts
    if r.1 = [] then r.2 else r.1 ++ r.2
  else parts

/-- `stripNonToolPartsAfterToolUse(parts)` (lines 1479–1500): after the first
`tool_use`, only further `tool_use` blocks survive. -/
def stripNonToolPartsAfterToolUse : Bool → List APart → List APart
  | _, [] => []
  | seen, p :: rest =>
    if p.ptype = "tool_use" then p :: stripNonToolPartsAfterToolUse true rest
    else if ¬ seen then p :: stripNonToolPartsAfterToolUse seen rest
    else if isIgnorableTrailingText p then stripNonToolPartsAfterToolUse seen rest
    else stripNonToolPartsAfterToolUse seen rest

/-- `message.content.filter(Boolean)`. -/
def partsOf (l : List (Option APart)) : List APart := l.filterMap id

/-- tool_use ids with a string id (lines 1535–1537). -/
def toolUseIdsOf (parts : List APart) : List String :=
  parts.filterMap (fun p => if p.ptype = "tool_use" then p.id else none)

/-- One iteration of the `normalizeAnthropicMessages` loop body: the messages
emitted for `msg` and the updated `pendingToolUseIds`. -/
def normStep (ag : Bool) (pending : List String) (msg : AMessage) :
    List AMessage × List String :=
  match msg.content with
  | none => ([msg], pending)
  | some rawParts =>
    let parts0 := partsOf rawParts
    let parts1 := if msg.role == "assistant"
      then normalizeAssistantThinkingOrderForVendor ag parts0 else parts0
    if ag && (msg.role == "assistant") then
      let pre := if pending.isEmpty then [] else [synthToolResultMsg pending]
      let stripped := stripNonToolPartsAfterToolUse false parts1
      let ids := toolUseIdsOf stripped
      (pre ++ [{ msg with content := some (stripped.map some) }], ids)
    else
      let merged :=
        if ag && (msg.role == "user") && !pending.isEmpty then
          let toolResults := parts1.filter (fun p => p.ptype = "tool_result")
          let trIds := toolResults.filterMap (fun p => p.toolUseId)
          let missing := pending.filter (fun i => ¬ trIds.contains i)
          if missing.isEmpty then parts1
          else
            toolResults ++ missing.map synthToolResult
              ++ parts1.filter (fun p => p.ptype ≠ "tool_result")
        else parts1
      let pending2 := if ag && (msg.role == "user") && !pending.isEmpty then [] else pending
      if !(msg.role == "user") then
        ([{ msg with content := some (merged.map some) }], pending2)
      else
        let toolResults := merged.filter (fun p => p.ptype = "tool_result")
        if toolResults.isEmpty then
          ([{ msg with content := some (merged.map some) }], pending2)
        else
          let nonToolResults := merged.filter (fun p => p.ptype ≠ "tool_result")
          if nonToolResults.isEmpty then
            ([{ msg with content := some (toolResults.map some) }], pending2)
          else
            ([{ msg with content := some (toolResults.map some) },
              { msg with content := some (nonToolResults.map some) }], pending2)

/-- The main loop of `normalizeAnthropicMessages`, threading the pending
unanswered tool_use ids (`pendingToolUseIds`); after the loop a trailing
synthesized tool_result message closes any ids still pending. -/
def normGo (ag : Bool) : List String → List AMessage → List AMessage
  | pending, [] =>
    if ag && !pending.isEmpty then [synthToolResultMsg pending] else []
  | pending, msg :: rest =>
    (normStep ag pending msg).1 ++ normGo ag (normStep ag pending msg).2 rest

/-- `normalizeAnthropicMessages(messages, {vendor})`; the vendor option is
abstracted to whether it equals `'antigravity'`. -/
def normalizeAnthropicMessages (ag : Bool) (messages : List AMessage) :
    List AMessage :=
  if messages = [] then messages else normGo ag [] messages

end Bridge

namespace Bridge

/-! ### Supporting lemmas for normalizer idempotence -/

theorem partsOf_map_some (l : List APart) : partsOf (l.map some) = l := by
  induction l with
  | nil => rfl
  | cons p rest ih =>
    simp only [List.map_cons, partsOf, List.filterMap_cons, id]
    simp only [partsOf] at ih
    rw [ih]

theorem strip_cons_toolUse (q : APart) (rest : List APart) (s : Bool)
    (hq : q.ptype = "tool_use") :
    stripNonToolPartsAfterToolUse s (q :: rest)
      = q :: stripNonToolPartsAfterToolUse true rest := by
  simp only [stripNonToolPartsAfterToolUse, if_pos hq]

theorem strip_cons_keep (q : APart) (rest : List APart)
    (hq : q.ptype ≠ "tool_use") :
    stripNonToolPartsAfterToolUse false (q :: rest)
      = q :: stripNonToolPartsAfterToolUse false rest := by
  simp only [stripNonToolPartsAfterToolUse, if_neg hq]
  rw [if_pos (show ¬ false = true by decide)]

theorem strip_cons_seen (q : APart) (rest : List APart)
    (hq : q.ptype ≠ "tool_use") :
    stripNonToolPartsAfterToolUse true (q :: rest)
      = stripNonToolPartsAfterToolUse true rest := by
  simp only [stripNonToolPartsAfterToolUse, if_neg hq]
  rw [if_neg (show ¬ ¬ True by simp)]
  split <;> rfl

theorem strip_subset : ∀ (s : Bool) (l : List APart) (p : APart),
    p ∈ stripNonToolPartsAfterToolUse s l → p ∈ l := by
  intro s l
  induction l generalizing s with
  | nil => intro p h; simp [stripNonToolPartsAfterToolUse] at h
  | cons q rest ih =>
    intro p h
    by_cases hq : q.ptype = "tool_use"
    · rw [strip_cons_toolUse q rest s hq] at h
      rcases List.mem_cons.mp h with heq | htail
      · exact heq ▸ List.mem_cons_self q rest
      · exact List.mem_cons_of_mem q (ih true p htail)
    · cases s with
      | false =>
        rw [strip_cons_keep q rest hq] at h
        rcases List.mem_cons.mp h with heq | htail
        · exact heq ▸ List.mem_cons_self q rest
        · exact List.mem_cons_of_mem q (ih false p htail)
      | true =>
        rw [strip_cons_seen q rest hq] at h
        exact List.mem_cons_of_mem q (ih true p h)

theorem strip_true_all_toolUse : ∀ (l : List APart) (p : APart),
    p ∈ stripNonToolPartsAfterToolUse true l → p.ptype = "tool_use" := by
  intro l
  induction l with
  | nil => intro p h; simp [stripNonToolPartsAfterToolUse] at h
  | cons q rest ih =>
    intro p h
    by_cases hq : q.ptype = "tool_use"
    · rw [strip_cons_toolUse q rest true hq] at h
      rcases List.mem_cons.mp h with heq | htail
      · exact heq ▸ hq
      · exact ih p htail
    · rw [strip_cons_seen q rest hq] at h
      exact ih p h

theorem strip_of_all_toolUse : ∀ (s : Bool) (l : List APart),
    (∀ p ∈ l, p.ptype = "tool_use") → stripNonToolPartsAfterToolUse s l = l := by
  intro s l
  induction l generalizing s with
  | nil => intro _; rfl
  | cons q rest ih =>
    intro hall
    have hq : q.ptype = "tool_use" := hall q (List.mem_cons_self q rest)
    rw [strip_cons_toolUse q rest s hq,
      ih true (fun p hp => hall p (List.mem_cons_of_mem q hp))]

theorem strip_idem : ∀ (l : List APart),
    stripNonToolPartsAfterToolUse false (stripNonToolPartsAfterToolUse false l)
      = stripNonToolPartsAfterToolUse false l := by
  intro l
  induction l with
  | nil => rfl
  | cons q rest ih =>
    by_cases hq : q.ptype = "tool_use"
    · rw [strip_cons_toolUse q rest false hq,
        strip_cons_toolUse q (stripNonToolPartsAfterToolUse true rest) false hq,
        strip_of_all_toolUse true _ (strip_true_all_toolUse rest)]
    · rw [strip_cons_keep q rest hq,
        strip_cons_keep q (stripNonToolPartsAfterToolUse false rest) hq, ih]

theorem strip_append_no_toolUse : ∀ (A B : List APart),
    (∀ p ∈ A, p.ptype ≠ "tool_use") →
    stripNonToolPartsAfterToolUse false (A ++ B)
      = A ++ stripNonToolPartsAfterToolUse false B := by
  intro A
  induction A with
  | nil => intro B _; rfl
  | cons q rest ih =>
    intro B hall
    have hq : q.ptype ≠ "tool_use" := hall q (List.mem_cons_self q rest)
    rw [List.cons_append, strip_cons_keep q (rest ++ B) hq,
      ih B (fun p hp => hall p (List.mem_cons_of_mem q hp)), List.cons_append]

theorem thinking_ne_toolUse (p : APart) (h : isThinkingType p = true) :
    p.ptype ≠ "tool_use" := by
  simp only [isThinkingType, decide_eq_true_eq, Bool.decide_or,
    Bool.or_eq_true, decide_eq_true_eq] at h
  rcases h with h | h <;> rw [h] <;> decide

theorem normThinkGo_fst : ∀ (l : List APart) (p : APart),
    p ∈ (normThinkGo l).1 → isThinkingType p = true ∧ p.cacheControl = none := by
  intro l
  induction l with
  | nil => intro p h; simp [normThinkGo] at h
  | cons q rest ih =>
    intro p h
    by_cases hq : isThinkingType q = true
    · rw [show normThinkGo (q :: rest)
          = ({ q with cacheControl := none } :: (normThinkGo rest).1,
             (normThinkGo rest).2) by simp [normThinkGo, hq]] at h
      rcases List.mem_cons.mp h with heq | htail
      · subst heq
        refine ⟨?_, rfl⟩
        simpa [isThinkingType] using hq
      · exact ih p htail
    · by_cases hig : isIgnorableTrailingText q = true
      · rw [show normThinkGo (q :: rest) = normThinkGo rest by
          simp [normThinkGo, hq, hig]] at h
        exact ih p h
      · rw [show normThinkGo (q :: rest)
            = ((normThinkGo rest).1, q :: (normThinkGo rest).2) by
          simp [normThinkGo, hq, hig]] at h
        exact ih p h

theorem normThinkGo_snd : ∀ (l : List APart) (p : APart),
    p ∈ (normThinkGo l).2 →
      isThinkingType p = false ∧ isIgnorableTrailingText p = false := by
  intro l
  induction l with
  | nil => intro p h; simp [normThinkGo] at h
  | cons q rest ih =>
    intro p h
    by_cases hq : isThinkingType q = true
    · rw [show normThinkGo (q :: rest)
          = ({ q with cacheControl := none } :: (normThinkGo rest).1,
             (normThinkGo rest).2) by simp [normThinkGo, hq]] at h
      exact ih p h
    · by_cases hig : isIgnorableTrailingText q = true
      · rw [show normThinkGo (q :: rest) = normThinkGo rest by
          simp [normThinkGo, hq, hig]] at h
        exact ih p h
      · rw [show normThinkGo (q :: rest)
            = ((normThinkGo rest).1, q :: (normThinkGo rest).2) by
          simp [normThinkGo, hq, hig]] at h
        rcases List.mem_cons.mp h with heq | htail
        · subst heq
          exact ⟨by simpa using hq, by simpa using hig⟩
        · exact ih p htail

theorem normThinkGo_of_parts : ∀ (A C : List APart),
    (∀ p ∈ A, isThinkingType p = true ∧ p.cacheControl = none) →
    (∀ p ∈ C, isThinkingType p = false ∧ isIgnorableTrailingText p = false) →
    normThinkGo (A ++ C) = (A, C) := by
  intro A
  induction A with
  | nil =>
    intro C _ hC
    induction C with
    | nil => rfl
    | cons c rest ihc =>
      have hc := hC c (List.mem_cons_self c rest)
      rw [List.nil_append] at ihc ⊢
      rw [show normThinkGo (c :: rest) = ((normThinkGo rest).1, c :: (normThinkGo rest).2) by
        simp [normThinkGo, hc.1, hc.2]]
      rw [ihc (fun p hp => hC p (List.mem_cons_of_mem c hp))]
  | cons a restA ih =>
    intro C hA hC
    have ha := hA a (List.mem_cons_self a restA)
    have haeq : ({ a with cacheControl := none } : APart) = a := by
      obtain ⟨p1, p2, p3, p4, p5, p6, p7⟩ := a
      have h2 : p3 = none := ha.2
      rw [h2]
    rw [List.cons_append,
      show normThinkGo (a :: (restA ++ C))
        = ({ a with cacheControl := none } :: (normThinkGo (restA ++ C)).1,
           (normThinkGo (restA ++ C)).2) by simp [normThinkGo, ha.1],
      ih C (fun p hp => hA p (List.mem_cons_of_mem a hp)) hC, haeq]

/-- The assistant-side fixed point: re-running the thinking-order pass and the
strip pass on an already processed assistant content list changes nothing. -/
theorem assistant_parts_stable (parts0 : List APart) :
    normalizeAssistantThinkingOrderForVendor true
        (stripNonToolPartsAfterToolUse false
          (normalizeAssistantThinkingOrderForVendor true parts0))
      = stripNonToolPartsAfterToolUse false
          (normalizeAssistantThinkingOrderForVendor true parts0)
    ∧ stripNonToolPartsAfterToolUse false
        (stripNonToolPartsAfterToolUse false
          (normalizeAssistantThinkingOrderForVendor true parts0))
      = stripNonToolPartsAfterToolUse false
          (normalizeAssistantThinkingOrderForVendor true parts0) := by
  refine ⟨?_, strip_idem _⟩
  have hP : normalizeAssistantThinkingOrderForVendor true parts0
      = if (normThinkGo parts0).1 = [] then (normThinkGo parts0).2
        else (normThinkGo parts0).1 ++ (normThinkGo parts0).2 := rfl
  by_cases hA : (normThinkGo parts0).1 = []
  · rw [hP, if_pos hA]
    have hS : ∀ p ∈ stripNonToolPartsAfterToolUse false (normThinkGo parts0).2,
        isThinkingType p = false ∧ isIgnorableTrailingText p = false :=
      fun p hp => normThinkGo_snd parts0 p (strip_subset false _ p hp)
    have hgo := normThinkGo_of_parts []
      (stripNonToolPartsAfterToolUse false (normThinkGo parts0).2)
      (by intro p hp; simp at hp) hS
    rw [List.nil_append] at hgo
    show (if (normThinkGo (stripNonToolPartsAfterToolUse false (normThinkGo parts0).2)).1 = []
      then (normThinkGo (stripNonToolPartsAfterToolUse false (normThinkGo parts0).2)).2
      else _ ++ _) = _
    rw [hgo]
    simp
  · rw [hP, if_neg hA]
    have hnoTU : ∀ p ∈ (normThinkGo parts0).1, p.ptype ≠ "tool_use" :=
      fun p hp => thinking_ne_toolUse p (normThinkGo_fst parts0 p hp).1
    rw [strip_append_no_toolUse _ _ hnoTU]
    have hC : ∀ p ∈ stripNonToolPartsAfterToolUse false (normThinkGo parts0).2,
        isThinkingType p = false ∧ isIgnorableTrailingText p = false :=
      fun p hp => normThinkGo_snd parts0 p (strip_subset false _ p hp)
    have hgo := normThinkGo_of_parts (normThinkGo parts0).1
      (stripNonToolPartsAfterToolUse false (normThinkGo parts0).2)
      (normThinkGo_fst parts0) hC
    show (if (normThinkGo ((normThinkGo parts0).1
        ++ stripNonToolPartsAfterToolUse false (normThinkGo parts0).2)).1 = []
      then _ else (normThinkGo ((normThinkGo parts0).1
        ++ stripNonToolPartsAfterToolUse false (normThinkGo parts0).2)).1
        ++ (normThinkGo ((normThinkGo parts0).1
        ++ stripNonToolPartsAfterToolUse false (normThinkGo parts0).2)).2) = _
    rw [hgo]
    simp [hA]

theorem trIds_map_synth (l : List String) :
    (l.map synthToolResult).filterMap (fun p => p.toolUseId) = l := by
  induction l with
  | nil => rfl
  | cons i rest ih => simp [synthToolResult, List.filterMap_cons] at ih ⊢; exact ih

theorem filter_tr_map_synth (l : List String) :
    (l.map synthToolResult).filter (fun p => p.ptype = "tool_result")
      = l.map synthToolResult := by
  rw [List.filter_eq_self]
  intro p hp
  rcases List.mem_map.mp hp with ⟨i, _, rfl⟩
  simp [synthToolResult]

theorem filter_not_tr_map_synth (l : List String) :
    (l.map synthToolResult).filter (fun p => p.ptype ≠ "tool_result") = [] := by
  rw [List.filter_eq_nil_iff]
  intro p hp
  rcases List.mem_map.mp hp with ⟨i, _, rfl⟩
  simp [synthToolResult]

theorem filter_not_contains_of_subset (p t : List String)
    (hsub : ∀ i ∈ p, i ∈ t) :
    p.filter (fun i => ¬ t.contains i) = [] := by
  rw [List.filter_eq_nil_iff]
  intro i hi
  simp
  exact hsub i hi

/-- Re-running `normStep` on the synthesized tool_result message consumes
exactly the pending ids it was created for. -/
theorem normStep_synth (pending : List String) (hp : pending ≠ []) :
    normStep true pending (synthToolResultMsg pending)
      = ([synthToolResultMsg pending], []) := by
  have hpe : pending.isEmpty = false := by
    cases pending
    · exact absurd rfl hp
    · rfl
  have hne2 : (pending.map synthToolResult).isEmpty = false := by
    cases pending
    · exact absurd rfl hp
    · rfl
  have hparts : partsOf (pending.map (fun i => some (synthToolResult i)))
      = pending.map synthToolResult := by
    rw [show pending.map (fun i => some (synthToolResult i))
        = (pending.map synthToolResult).map some by rw [List.map_map]; rfl]
    exact partsOf_map_some _
  simp only [normStep, synthToolResultMsg]
  rw [hparts, hpe]
  simp only [show (("user" : String) == "assistant") = false from rfl,
    show (("user" : String) == "user") = true from rfl,
    Bool.and_false, Bool.and_true, Bool.true_and, Bool.not_false,
    Bool.false_eq_true, if_false, if_true]
  rw [filter_tr_map_synth, trIds_map_synth,
    filter_not_contains_of_subset pending pending (fun i hi => hi)]
  simp only [List.isEmpty_nil, if_true]
  rw [filter_tr_map_synth, hne2]
  simp only [Bool.not_true, Bool.false_eq_true, if_false]
  rw [filter_not_tr_map_synth]
  simp only [List.isEmpty_nil, if_true]
  rw [List.map_map]
  rfl

/-- Re-running `normStep` on a processed assistant message (antigravity) with
no pending ids reproduces it and re-derives the same tool_use ids. -/
theorem normStep_assistant_stable (msg : AMessage) (raw : List (Option APart))
    (hrole : msg.role = "assistant") :
    normStep true [] { msg with content := some ((stripNonToolPartsAfterToolUse false
      (normalizeAssistantThinkingOrderForVendor true (partsOf raw))).map some) }
    = ([{ msg with content := some ((stripNonToolPartsAfterToolUse false
        (normalizeAssistantThinkingOrderForVendor true (partsOf raw))).map some) }],
       toolUseIdsOf (stripNonToolPartsAfterToolUse false
         (normalizeAssistantThinkingOrderForVendor true (partsOf raw)))) := by
  have hstab := assistant_parts_stable (partsOf raw)
  simp only [normStep, partsOf_map_some, hrole]
  simp [hstab.1, hstab.2, hrole]

theorem isEmpty_false_of_ne_nil {α : Type} {l : List α} (h : l ≠ []) :
    l.isEmpty = false := by
  cases l
  · exact absurd rfl h
  · rfl

theorem filter_tr_of_all (M : List APart)
    (hall : ∀ p ∈ M, p.ptype = "tool_result") :
    M.filter (fun p => p.ptype = "tool_result") = M := by
  rw [List.filter_eq_self]
  intro p hp
  exact decide_eq_true (hall p hp)

theorem filter_not_tr_of_all (M : List APart)
    (hall : ∀ p ∈ M, p.ptype = "tool_result") :
    M.filter (fun p => p.ptype ≠ "tool_result") = [] := by
  rw [List.filter_eq_nil_iff]
  intro p hp
  simp [hall p hp]

theorem filter_tr_of_none (M : List APart)
    (hnone : ∀ p ∈ M, p.ptype ≠ "tool_result") :
    M.filter (fun p => p.ptype = "tool_result") = [] := by
  rw [List.filter_eq_nil_iff]
  intro p hp
  simp [hnone p hp]

/-- `normStep` fixes a message whose role is neither the (antigravity)
assistant case nor user: the message is re-emitted unchanged. -/
theorem normStep_else (ag : Bool) (pending : List String) (msg : AMessage)
    (M : List APart)
    (hrole : (msg.role == "user") = false)
    (hnotag : (ag && (msg.role == "assistant")) = false) :
    normStep ag pending { msg with content := some (M.map some) }
      = ([{ msg with content := some (M.map some) }], pending) := by
  have hM : (if (msg.role == "assistant") = true
      then normalizeAssistantThinkingOrderForVendor ag M else M) = M := by
    by_cases h : (msg.role == "assistant") = true
    · have hagf : ag = false := by
        cases ag
        · rfl
        · rw [h] at hnotag; exact absurd hnotag (by simp)
      rw [if_pos h, hagf]
      rfl
    · rw [if_neg h]
  simp only [normStep, partsOf_map_some]
  rw [hM, hnotag]
  simp only [Bool.false_eq_true, if_false]
  rw [show (ag && (msg.role == "user") && !pending.isEmpty) = false by
    rw [hrole]; simp]
  simp only [Bool.false_eq_true, if_false]
  rw [hrole]
  simp only [Bool.not_false, if_true]

/-- `normStep` fixes a user message without tool_results when the pending
merge does not apply. -/
theorem normStep_user_no_tr (ag : Bool) (pending : List String) (msg : AMessage)
    (M : List APart)
    (hrole : msg.role = "user")
    (hnotr : M.filter (fun p => p.ptype = "tool_result") = [])
    (hoff : (ag && !pending.isEmpty) = false) :
    normStep ag pending { msg with content := some (M.map some) }
      = ([{ msg with content := some (M.map some) }], pending) := by
  simp only [normStep, partsOf_map_some, hrole]
  simp only [show (("user" : String) == "assistant") = false from rfl,
    show (("user" : String) == "user") = true from rfl,
    Bool.and_false, Bool.and_true, Bool.false_eq_true, if_false]
  rw [hoff]
  simp only [Bool.false_eq_true, if_false]
  simp only [Bool.not_true, Bool.false_eq_true, if_false]
  rw [hnotr]
  simp only [List.isEmpty_nil, if_true]

/-- `normStep` fixes a nonempty all-tool_result user message; with the merge
active the pending ids must be covered by the message and are consumed, with
the merge inactive the pending ids pass through. -/
theorem normStep_user_all_tr (ag : Bool) (pending : List String) (msg : AMessage)
    (M : List APart)
    (hrole : msg.role = "user")
    (hall : ∀ p ∈ M, p.ptype = "tool_result")
    (hMne : M ≠ [])
    (hcov : (ag && !pending.isEmpty) = true →
      ∀ i ∈ pending, i ∈ M.filterMap (fun p => p.toolUseId)) :
    normStep ag pending { msg with content := some (M.map some) }
      = ([{ msg with content := some (M.map some) }],
         if ag && !pending.isEmpty then [] else pending) := by
  have htr := filter_tr_of_all M hall
  have hntr := filter_not_tr_of_all M hall
  have hMe : M.isEmpty = false := isEmpty_false_of_ne_nil hMne
  simp only [normStep, partsOf_map_some, hrole]
  simp only [show (("user" : String) == "assistant") = false from rfl,
    show (("user" : String) == "user") = true from rfl,
    Bool.and_false, Bool.and_true, Bool.false_eq_true, if_false]
  by_cases hon : (ag && !pending.isEmpty) = true
  · rw [hon]
    simp only [if_true]
    rw [htr, filter_not_contains_of_subset pending _ (hcov hon)]
    simp only [List.isEmpty_nil, if_true]
    simp only [Bool.not_true, Bool.false_eq_true, if_false]
    rw [htr, hMe]
    simp only [Bool.false_eq_true, if_false]
    rw [hntr]
    simp only [List.isEmpty_nil, if_true]
  · have hoff : (ag && !pending.isEmpty) = false := by simpa using hon
    rw [hoff]
    simp only [Bool.false_eq_true, if_false]
    simp only [Bool.not_true, Bool.false_eq_true, if_false]
    rw [htr, hMe]
    simp only [Bool.false_eq_true, if_false]
    rw [hntr]
    simp only [List.isEmpty_nil, if_true]

theorem mem_filter_tr {M : List APart} {p : APart}
    (h : p ∈ M.filter (fun p => p.ptype = "tool_result")) :
    p.ptype = "tool_result" := by
  have := List.of_mem_filter h
  simpa using this

theorem mem_filter_ntr {M : List APart} {p : APart}
    (h : p ∈ M.filter (fun p => p.ptype ≠ "tool_result")) :
    p.ptype ≠ "tool_result" := by
  have := List.of_mem_filter h
  simpa using this

/-- The tool_result prefix, its ids, the uncovered pending ids, and the merged
content of the user-merge path of `normStep` (named for the proofs below; the
bodies are syntactically those of `normStep`). -/
def trOf (parts1 : List APart) : List APart :=
  parts1.filter (fun p => p.ptype = "tool_result")

def trIdsOf (parts1 : List APart) : List String :=
  (trOf parts1).filterMap (fun p => p.toolUseId)

def missingOf (parts1 : List APart) (pending : List String) : List String :=
  pending.filter (fun i => ¬ (trIdsOf parts1).contains i)

def mergedOf (parts1 : List APart) (pending : List String) : List APart :=
  if (missingOf parts1 pending).isEmpty then parts1
  else
    trOf parts1 ++ (missingOf parts1 pending).map synthToolResult
      ++ parts1.filter (fun p => p.ptype ≠ "tool_result")

/-- After the user-merge, the tool_result blocks of the merged content are the
original ones followed by the synthesized ones; they are nonempty, they cover
every pending id, and the non-tool_result remainder is untouched. -/
theorem merged_props (parts1 : List APart) (pending : List String)
    (hp : pending ≠ []) :
    (mergedOf parts1 pending).filter (fun p => p.ptype = "tool_result")
      = trOf parts1 ++ (missingOf parts1 pending).map synthToolResult
    ∧ (mergedOf parts1 pending).filter (fun p => p.ptype = "tool_result") ≠ []
    ∧ (∀ i ∈ pending, i ∈ ((mergedOf parts1 pending).filter
        (fun p => p.ptype = "tool_result")).filterMap (fun p => p.toolUseId))
    ∧ (mergedOf parts1 pending).filter (fun p => p.ptype ≠ "tool_result")
      = parts1.filter (fun p => p.ptype ≠ "tool_result") := by
  have htrtr : (trOf parts1).filter (fun p => p.ptype = "tool_result") = trOf parts1 :=
    filter_tr_of_all _ (fun p hp => mem_filter_tr hp)
  have hntrtr : (parts1.filter (fun p => p.ptype ≠ "tool_result")).filter
      (fun p => p.ptype = "tool_result") = [] :=
    filter_tr_of_none _ (fun p hp => mem_filter_ntr hp)
  have htr_ntr : (trOf parts1).filter (fun p => p.ptype ≠ "tool_result") = [] :=
    filter_not_tr_of_all _ (fun p hp => mem_filter_tr hp)
  have hntr_ntr : (parts1.filter (fun p => p.ptype ≠ "tool_result")).filter
      (fun p => p.ptype ≠ "tool_result") = parts1.filter (fun p => p.ptype ≠ "tool_result") := by
    rw [List.filter_eq_self]
    intro p hp
    exact decide_eq_true (mem_filter_ntr hp)
  have hfil : (mergedOf parts1 pending).filter (fun p => p.ptype = "tool_result")
      = trOf parts1 ++ (missingOf parts1 pending).map synthToolResult := by
    by_cases hmiss : (missingOf parts1 pending).isEmpty = true
    · have hm : missingOf parts1 pending = [] := by
        cases hme : missingOf parts1 pending
        · rfl
        · rw [hme] at hmiss; exact absurd hmiss (by simp)
      rw [mergedOf, if_pos hmiss, hm]
      simp [trOf]
    · rw [mergedOf, if_neg hmiss, List.filter_append, List.filter_append,
        htrtr, filter_tr_map_synth, hntrtr]
      simp
  refine ⟨hfil, ?_, ?_, ?_⟩
  · rw [hfil]
    intro hnil
    have htre : trOf parts1 = [] := by
      cases h : trOf parts1
      · rfl
      · rw [h] at hnil; simp at hnil
    have hmse : (missingOf parts1 pending).map synthToolResult = [] := by
      rw [htre] at hnil
      simpa using hnil
    have hms : missingOf parts1 pending = [] := List.map_eq_nil_iff.mp hmse
    -- with no tool_results at all, nothing covers pending, so missing = pending ≠ []
    have : missingOf parts1 pending = pending := by
      rw [missingOf, trIdsOf, htre]
      simp [List.filter_eq_self]
    rw [this] at hms
    exact hp hms
  · intro i hi
    rw [hfil, List.filterMap_append, trIds_map_synth]
    by_cases hmem : i ∈ trIdsOf parts1
    · exact List.mem_append.mpr (Or.inl (by rw [trIdsOf] at hmem; exact hmem))
    · refine List.mem_append.mpr (Or.inr ?_)
      rw [missingOf]
      rw [List.mem_filter]
      refine ⟨hi, ?_⟩
      simp only [decide_not, Bool.not_eq_true', decide_eq_false_iff_not]
      intro hcon
      exact hmem (by simpa using hcon)
  · by_cases hmiss : (missingOf parts1 pending).isEmpty = true
    · rw [mergedOf, if_pos hmiss]
    · rw [mergedOf, if_neg hmiss, List.filter_append, List.filter_append,
        htr_ntr, filter_not_tr_map_synth, hntr_ntr]
      simp

theorem normStep_user_on_eq (ag : Bool) (pending : List String) (msg : AMessage)
    (raw : List (Option APart)) (hcontent : msg.content = some raw)
    (hrole : msg.role = "user") (hon : (ag && !pending.isEmpty) = true) :
    normStep ag pending msg
      = (if ((mergedOf (partsOf raw) pending).filter
            (fun p => p.ptype = "tool_result")).isEmpty then
          ([{ msg with content := some ((mergedOf (partsOf raw) pending).map some) }], [])
        else if ((mergedOf (partsOf raw) pending).filter
            (fun p => p.ptype ≠ "tool_result")).isEmpty then
          ([{ msg with content := some (((mergedOf (partsOf raw) pending).filter
              (fun p => p.ptype = "tool_result")).map some) }], [])
        else
          ([{ msg with content := some (((mergedOf (partsOf raw) pending).filter
              (fun p => p.ptype = "tool_result")).map some) },
            { msg with content := some (((mergedOf (partsOf raw) pending).filter
              (fun p => p.ptype ≠ "tool_result")).map some) }], [])) := by
  simp only [normStep, hcontent, hrole, mergedOf, missingOf, trIdsOf, trOf]
  simp only [show (("user" : String) == "assistant") = false from rfl,
    show (("user" : String) == "user") = true from rfl,
    Bool.and_false, Bool.and_true, Bool.false_eq_true, if_false]
  rw [hon]
  simp only [if_true, Bool.not_true, Bool.false_eq_true, if_false]

theorem normStep_user_off_eq (ag : Bool) (pending : List String) (msg : AMessage)
    (raw : List (Option APart)) (hcontent : msg.content = some raw)
    (hrole : msg.role = "user") (hoff : (ag && !pending.isEmpty) = false) :
    normStep ag pending msg
      = (if ((partsOf raw).filter (fun p => p.ptype = "tool_result")).isEmpty then
          ([{ msg with content := some ((partsOf raw).map some) }], pending)
        else if ((partsOf raw).filter (fun p => p.ptype ≠ "tool_result")).isEmpty then
          ([{ msg with content := some (((partsOf raw).filter
              (fun p => p.ptype = "tool_result")).map some) }], pending)
        else
          ([{ msg with content := some (((partsOf raw).filter
              (fun p => p.ptype = "tool_result")).map some) },
            { msg with content := some (((partsOf raw).filter
              (fun p => p.ptype ≠ "tool_result")).map some) }], pending)) := by
  simp only [normStep, hcontent, hrole]
  simp only [show (("user" : String) == "assistant") = false from rfl,
    show (("user" : String) == "user") = true from rfl,
    Bool.and_false, Bool.and_true, Bool.false_eq_true, if_false]
  rw [hoff]
  simp only [Bool.false_eq_true, if_false, Bool.not_true]

/-- **Step stability**: re-running the normalizer over the output block of one
step, starting from the same pending ids, reproduces the block verbatim and
hands the step's resulting pending ids to the remaining messages. -/
theorem normStep_stable (ag : Bool) (pending : List String) (msg : AMessage)
    (tail : List AMessage) :
    normGo ag pending ((normStep ag pending msg).1 ++ tail)
      = (normStep ag pending msg).1 ++ normGo ag (normStep ag pending msg).2 tail := by
  cases hcontent : msg.content with
  | none =>
    have hstep : normStep ag pending msg = ([msg], pending) := by
      simp only [normStep, hcontent]
    rw [hstep]
    show normGo ag pending (msg :: tail) = _
    rw [show normGo ag pending (msg :: tail)
        = (normStep ag pending msg).1 ++ normGo ag (normStep ag pending msg).2 tail
      from rfl, hstep]
  | some raw =>
    by_cases hA : (ag && (msg.role == "assistant")) = true
    · -- antigravity assistant message
      have hag : ag = true := by
        cases ag
        · simp at hA
        · rfl
      have hassist : (msg.role == "assistant") = true := by
        rw [hag, Bool.true_and] at hA
        exact hA
      have hrole : msg.role = "assistant" := by simpa using hassist
      subst hag
      by_cases hpe : pending.isEmpty = true
      · have hp0 : pending = [] := by
          cases pending
          · rfl
          · simp at hpe
        subst hp0
        have hstep : normStep true [] msg
            = ([{ msg with content := some ((stripNonToolPartsAfterToolUse false
                (normalizeAssistantThinkingOrderForVendor true (partsOf raw))).map some) }],
               toolUseIdsOf (stripNonToolPartsAfterToolUse false
                 (normalizeAssistantThinkingOrderForVendor true (partsOf raw)))) := by
          simp only [normStep, hcontent, hassist, Bool.and_true, Bool.true_and, if_true,
            List.isEmpty_nil, List.nil_append]
        rw [hstep]
        show normGo true [] (_ :: tail) = _
        rw [show ∀ m t, normGo true [] (m :: t)
            = (normStep true [] m).1 ++ normGo true (normStep true [] m).2 t
          from fun m t => rfl]
        rw [normStep_assistant_stable msg raw hrole]
      · have hp : pending ≠ [] := by
          cases pending
          · simp at hpe
          · simp
        have hstep : normStep true pending msg
            = ([synthToolResultMsg pending,
                { msg with content := some ((stripNonToolPartsAfterToolUse false
                  (normalizeAssistantThinkingOrderForVendor true (partsOf raw))).map some) }],
               toolUseIdsOf (stripNonToolPartsAfterToolUse false
                 (normalizeAssistantThinkingOrderForVendor true (partsOf raw)))) := by
          simp only [normStep, hcontent, hassist, Bool.and_true, Bool.true_and, if_true]
          rw [show pending.isEmpty = false by simpa using hpe]
          simp
        rw [hstep]
        show normGo true pending (synthToolResultMsg pending :: _ :: tail) = _
        rw [show ∀ p m t, normGo true p (m :: t)
            = (normStep true p m).1 ++ normGo true (normStep true p m).2 t
          from fun p m t => rfl]
        rw [normStep_synth pending hp]
        rw [show ∀ p m t, normGo true p (m :: t)
            = (normStep true p m).1 ++ normGo true (normStep true p m).2 t
          from fun p m t => rfl]
        rw [normStep_assistant_stable msg raw hrole]
        simp
    · have haf : (ag && (msg.role == "assistant")) = false := by simpa using hA
      by_cases hu : (msg.role == "user") = true
      · -- user message
        have hrole : msg.role = "user" := by simpa using hu
        by_cases hon : (ag && !pending.isEmpty) = true
        · -- pending merge active
          have hp : pending ≠ [] := by
            intro h
            subst h
            simp at hon
          have hprops := merged_props (partsOf raw) pending hp
          rw [normStep_user_on_eq ag pending msg raw hcontent hrole hon]
          have htrne : ((mergedOf (partsOf raw) pending).filter
              (fun p => p.ptype = "tool_result")).isEmpty = false :=
            isEmpty_false_of_ne_nil hprops.2.1
          rw [htrne]
          simp only [Bool.false_eq_true, if_false]
          by_cases hntr : ((mergedOf (partsOf raw) pending).filter
              (fun p => p.ptype ≠ "tool_result")).isEmpty = true
          · rw [hntr]
            simp only [if_true]
            show normGo ag pending (_ :: tail) = _
            rw [show ∀ p m t, normGo ag p (m :: t)
                = (normStep ag p m).1 ++ normGo ag (normStep ag p m).2 t
              from fun p m t => rfl]
            rw [normStep_user_all_tr ag pending msg _ hrole
              (fun p hp => mem_filter_tr hp)
              hprops.2.1
              (fun _ => hprops.2.2.1)]
            rw [hon]
            simp only [if_true]
          · rw [show ((mergedOf (partsOf raw) pending).filter
                (fun p => p.ptype ≠ "tool_result")).isEmpty = false by simpa using hntr]
            simp only [Bool.false_eq_true, if_false]
            show normGo ag pending (_ :: _ :: tail) = _
            rw [show ∀ p m t, normGo ag p (m :: t)
                = (normStep ag p m).1 ++ normGo ag (normStep ag p m).2 t
              from fun p m t => rfl]
            rw [normStep_user_all_tr ag pending msg _ hrole
              (fun p hp => mem_filter_tr hp)
              hprops.2.1
              (fun _ => hprops.2.2.1)]
            rw [hon]
            simp only [if_true]
            rw [show ∀ p m t, normGo ag p (m :: t)
                = (normStep ag p m).1 ++ normGo ag (normStep ag p m).2 t
              from fun p m t => rfl]
            rw [normStep_user_no_tr ag [] msg _ hrole
              (filter_tr_of_none _ (fun p hp => mem_filter_ntr hp))
              (by simp)]
            simp
        · -- pending merge inactive
          have hoff : (ag && !pending.isEmpty) = false := by simpa using hon
          rw [normStep_user_off_eq ag pending msg raw hcontent hrole hoff]
          by_cases htre : ((partsOf raw).filter
              (fun p => p.ptype = "tool_result")).isEmpty = true
          · rw [htre]
            simp only [if_true]
            show normGo ag pending (_ :: tail) = _
            rw [show ∀ p m t, normGo ag p (m :: t)
                = (normStep ag p m).1 ++ normGo ag (normStep ag p m).2 t
              from fun p m t => rfl]
            rw [normStep_user_no_tr ag pending msg _ hrole
              (by
                cases h : (partsOf raw).filter (fun p => p.ptype = "tool_result")
                · rfl
                · rw [h] at htre; simp at htre)
              hoff]
          · rw [show ((partsOf raw).filter
                (fun p => p.ptype = "tool_result")).isEmpty = false by simpa using htre]
            simp only [Bool.false_eq_true, if_false]
            have htrne : (partsOf raw).filter (fun p => p.ptype = "tool_result") ≠ [] := by
              intro h
              rw [h] at htre
              simp at htre
            by_cases hntr : ((partsOf raw).filter
                (fun p => p.ptype ≠ "tool_result")).isEmpty = true
            · rw [hntr]
              simp only [if_true]
              show normGo ag pending (_ :: tail) = _
              rw [show ∀ p m t, normGo ag p (m :: t)
                  = (normStep ag p m).1 ++ normGo ag (normStep ag p m).2 t
                from fun p m t => rfl]
              rw [normStep_user_all_tr ag pending msg _ hrole
                (fun p hp => mem_filter_tr hp) htrne
                (fun h => absurd h (by rw [hoff]; simp))]
              rw [hoff]
              simp only [Bool.false_eq_true, if_false]
            · rw [show ((partsOf raw).filter
                  (fun p => p.ptype ≠ "tool_result")).isEmpty = false by simpa using hntr]
              simp only [Bool.false_eq_true, if_false]
              show normGo ag pending (_ :: _ :: tail) = _
              rw [show ∀ p m t, normGo ag p (m :: t)
                  = (normStep ag p m).1 ++ normGo ag (normStep ag p m).2 t
                from fun p m t => rfl]
              rw [normStep_user_all_tr ag pending msg _ hrole
                (fun p hp => mem_filter_tr hp) htrne
                (fun h => absurd h (by rw [hoff]; simp))]
              rw [hoff]
              simp only [Bool.false_eq_true, if_false]
              rw [show ∀ p m t, normGo ag p (m :: t)
                  = (normStep ag p m).1 ++ normGo ag (normStep ag p m).2 t
                from fun p m t => rfl]
              rw [normStep_user_no_tr ag pending msg _ hrole
                (filter_tr_of_none _ (fun p hp => mem_filter_ntr hp))
                hoff]
              simp
      · -- role neither user (nor antigravity assistant)
        have huf : (msg.role == "user") = false := by simpa using hu
        have hstep : normStep ag pending msg
            = ([{ msg with content := some ((if msg.role == "assistant"
                then normalizeAssistantThinkingOrderForVendor ag (partsOf raw)
                else partsOf raw).map some) }], pending) := by
          simp only [normStep, hcontent]
          rw [haf]
          simp only [Bool.false_eq_true, if_false]
          rw [show (ag && (msg.role == "user") && !pending.isEmpty) = false by
            rw [huf]; simp]
          simp only [Bool.false_eq_true, if_false]
          rw [huf]
          simp only [Bool.not_false, if_true]
        rw [hstep]
        show normGo ag pending (_ :: tail) = _
        rw [show ∀ p m t, normGo ag p (m :: t)
            = (normStep ag p m).1 ++ normGo ag (normStep ag p m).2 t
          from fun p m t => rfl]
        rw [normStep_else ag pending msg _ huf haf]

theorem normGo_idem (ag : Bool) (ms : List AMessage) :
    ∀ pending, normGo ag pending (normGo ag pending ms) = normGo ag pending ms := by
  induction ms with
  | nil =>
    intro pending
    have h0 : ∀ p : List String, normGo ag p []
        = if ag && !p.isEmpty then [synthToolResultMsg p] else [] := fun p => rfl
    by_cases hb : (ag && !pending.isEmpty) = true
    · have hag : ag = true := by
        cases ag
        · simp at hb
        · rfl
      have hp : pending ≠ [] := by
        intro h
        subst h
        simp at hb
      subst hag
      rw [h0, hb]
      simp only [if_true]
      rw [show ∀ p m t, normGo true p (m :: t)
          = (normStep true p m).1 ++ normGo true (normStep true p m).2 t
        from fun p m t => rfl]
      rw [normStep_synth pending hp, h0]
      simp
    · have hbf : (ag && !pending.isEmpty) = false := by simpa using hb
      rw [h0, hbf]
      simp only [Bool.false_eq_true, if_false]
      rw [h0, hbf]
      simp
  | cons m rest ih =>
    intro pending
    rw [show normGo ag pending (m :: rest)
        = (normStep ag pending m).1 ++ normGo ag (normStep ag pending m).2 rest
      from rfl]
    rw [normStep_stable, ih]

/-- **C5**: `normalizeAnthropicMessages` is idempotent: applying it a second
time (with the same vendor setting) returns the output of the first
application unchanged. -/
theorem c5_normalize_idempotent (ag : Bool) (messages : List AMessage) :
    normalizeAnthropicMessages ag (normalizeAnthropicMessages ag messages)
      = normalizeAnthropicMessages ag messages := by
  by_cases hms : messages = []
  · subst hms
    simp [normalizeAnthropicMessages]
  · rw [show normalizeAnthropicMessages ag messages = normGo ag [] messages by
      simp [normalizeAnthropicMessages, hms]]
    by_cases hout : normGo ag [] messages = []
    · rw [hout]
      simp [normalizeAnthropicMessages]
    · rw [show normalizeAnthropicMessages ag (normGo ag [] messages)
          = normGo ag [] (normGo ag [] messages) by
        simp [normalizeAnthropicMessages, hout]]
      exact normGo_idem ag messages []

end Bridge

namespace Bridge

/-! ### Streaming SSE machine (`handleAnthropicMessagesToGemini`, stream path)

The upstream byte/SSE-line layer is abstracted away: the handler is modelled
from the point where `parseSSELine` has produced a sequence of parsed `data`
payloads (`GPayload`), which is exactly the granularity at which the data
handler operates.  Network calls made by the rescue path and platform
builtins (`JSON.parse`, `crypto.randomBytes`) are parameters of
`StreamConfig`. -/

/-- `usageMetadata` of a Gemini payload (absent numeric fields are `none`). -/
structure GUsage where
  promptTokenCount : Option Int
  candidatesTokenCount : Option Int
  thoughtsTokenCount : Option Int
  totalTokenCount : Option Int

/-- A `functionCall` object on a Gemini part.  `rawArgs` is the value of the
first defined field among `args`, `partialArgs`, `partial_args`, `argsJson`,
`args_json` (`none` when all are undefined); `willContinue` is the disjunction
of the `willContinue`/`will_continue`/`continue` truthiness checks. -/
structure GFunctionCall where
  name : Option String
  id : Option String
  rawArgs : Option Json
  willContinue : Bool

/-- One entry of `candidates[0].content.parts`.  `thoughtSignature` stands for
the first defined of `thoughtSignature`/`thought_signature`/`signature`. -/
structure GPart where
  text : Option String
  thought : Bool
  thoughtSignature : Option String
  functionCall : Option GFunctionCall

/-- One parsed upstream SSE `data` payload (after the `response` unwrapping). -/
structure GPayload where
  usageMetadata : Option GUsage
  finishReason : Option String
  parts : List GPart

/-- An Anthropic content block produced by
`convertGeminiPayloadToAnthropicContent` (used only by the rescue path, which
is abstracted at that conversion boundary). -/
inductive RBlock where
  | text (t : String)
  | toolUse (name : String) (input : Option Json) (id : Option String)
  | other

/-- The `content_block` payload of a `content_block_start` event. -/
inductive ContentBlock where
  | text
  | thinking
  | toolUse (id : String) (name : String)
  deriving DecidableEq

/-- The `delta` payload of a `content_block_delta` event. -/
inductive DeltaPayload where
  | textDelta (t : String)
  | thinkingDelta (t : String)
  | signatureDelta (s : String)
  | inputJsonDelta (j : String)
  deriving DecidableEq

/-- One client-visible Anthropic SSE event. -/
inductive SseEvent where
  | messageStart
  | blockStart (index : Int) (block : ContentBlock)
  | blockDelta (index : Int) (delta : DeltaPayload)
  | blockStop (index : Int)
  | messageDelta (stopReason : String) (outputTokens : Int)
  | messageStop
  deriving DecidableEq

/-- The block type recorded in `currentBlockType`. -/
inductive BlockKind where
  | text
  | thinking
  | toolUse
  deriving DecidableEq

/-- An entry of `pendingToolCallsById`. -/
structure PendingCall where
  name : String
  args : Option Json
  argsJson : String

/-- Mutable state of the stream handler (only what the emission logic touches). -/
structure MState where
  events : List SseEvent
  currentIndex : Int
  currentBlockType : Option BlockKind
  emittedText : String
  emittedThinking : String
  emittedThoughtSignature : String
  finishReason : Option String
  usage : Option GUsage
  emittedAnyToolUse : Bool
  emittedToolCallKeys : List String
  pendingToolCallsById : List (String × PendingCall)
  mcpXmlBuffer : String
  inMcpXml : Bool
  rescueAttempted : Bool
  forcedRescueAttempted : Bool
  rescueCalls : Nat
  idCounter : Nat
  finished : Bool

/-- Request-level configuration and abstracted platform/network effects.
`rescue1`/`rescue2` are the (usage, converted content) results of the plain
and forced rescue calls, `none` meaning the call threw; `rescueCalls` counts
how many of them the run actually performs. -/
structure StreamConfig where
  isAntigravityVendor : Bool
  includeThoughts : Bool
  plannedToolName : Option String
  jparse : String → Option Json
  genId : Nat → String
  rescue1 : Option (Option GUsage × List RBlock)
  rescue2 : Option (Option GUsage × List RBlock)

def wantsThinkingBlockFirst (cfg : StreamConfig) : Bool :=
  cfg.isAntigravityVendor && cfg.includeThoughts

/-- `s.slice n` on strings (character based, as Lean's `String.drop` does not
reduce in the kernel). -/
def dropChars (s : String) (n : Nat) : String := ⟨s.data.drop n⟩

/-- First index at which `needle` occurs in `hay` (JS `String.indexOf`,
with `none` for `-1`). -/
def findSubIdx : List Char → List Char → Option Nat
  | _, [] => some 0
  | [], _ :: _ => none
  | c :: hay, needle =>
    if needle.isPrefixOf (c :: hay) then some 0
    else (findSubIdx hay needle).map (· + 1)

def containsSub (hay needle : String) : Bool := (findSubIdx hay.data needle.data).isSome

/-- `extractGeminiText(payload)` (default `includeThought = false`). -/
def extractGeminiText (p : GPayload) : String :=
  String.join ((p.parts.filter
    (fun part => (match part.text with
      | some t => !t.isEmpty
      | none => false) && !part.thought)).map (fun part => part.text.getD ""))

/-- `extractGeminiThoughtText(payload)`. -/
def extractGeminiThoughtText (p : GPayload) : String :=
  String.join ((p.parts.filter
    (fun part => part.thought && (match part.text with
      | some t => !t.isEmpty
      | none => false))).map (fun part => part.text.getD ""))

def resolveSignature (part : GPart) : String :=
  (part.thoughtSignature.getD "")

def fcNameTruthy (part : GPart) : Bool :=
  match part.functionCall with
  | some fc => !(fc.name.getD "").isEmpty
  | none => false

/-- `extractGeminiThoughtSignature(payload)`: signature of the first
function-call part carrying one, else of the first thought part carrying one,
else the empty string. -/
def extractGeminiThoughtSignature (p : GPayload) : String :=
  match p.parts.find? (fun part => fcNameTruthy part && !(resolveSignature part).isEmpty) with
  | some part => resolveSignature part
  | none =>
    match p.parts.find? (fun part => part.thought && !(resolveSignature part).isEmpty) with
    | some part => resolveSignature part
    | none => ""

/-- `resolveUsageOutputTokens(usageMetadata)`. -/
def resolveUsageOutputTokens (um : Option GUsage) : Int :=
  match um with
  | none => 0
  | some u =>
    let candidateTokens := u.candidatesTokenCount.getD 0
    let thoughtTokens := u.thoughtsTokenCount.getD 0
    let totalTokens := u.totalTokenCount.getD 0
    let promptTokens := u.promptTokenCount.getD 0
    let outputTokens := candidateTokens + thoughtTokens
    if outputTokens = 0 && totalTokens > 0 then
      if totalTokens - promptTokens < 0 then 0 else totalTokens - promptTokens
    else outputTokens

def isSigTokenChar (c : Char) : Bool :=
  c.isAlpha || c.isDigit || c = '+' || c = '/' || c = '_' || c = '=' || c = '-'

/-- `sanitizeThoughtSignatureForAntigravity(signature)`. -/
def sanitizeThoughtSignatureForAntigravity (signature : String) : String :=
  if signature.isEmpty then ""
  else
    let trimmed := trimChars signature
    if trimmed.isEmpty then ""
    else
      let compacted : String := ⟨trimmed.data.filter (fun c => !c.isWhitespace)⟩
      if compacted.data.length > 65536 then ""
      else if !(compacted.data.all isSigTokenChar) then ""
      else if compacted.data.length < 8 then ""
      else compacted

mutual

/-- JS `String(value)` on a JSON value (only reached for the corner case of a
non-string non-object `raw` in `resolveFunctionCallArgs`). -/
def jsToString : Json → String
  | Json.null => "null"
  | Json.bool true => "true"
  | Json.bool false => "false"
  | Json.num n => toString n
  | Json.str s => s
  | Json.arr l => String.intercalate "," (jsToStringList l)
  | Json.obj _ => "[object Object]"

def jsToStringList : List Json → List String
  | [] => []
  | Json.null :: rest => "" :: jsToStringList rest
  | j :: rest => jsToString j :: jsToStringList rest

end
def pushEvent (s : MState) (e : SseEvent) : MState :=
  { s with events := s.events ++ [e] }

def startTextBlock (s : MState) (i : Int) : MState :=
  pushEvent s (SseEvent.blockStart i ContentBlock.text)

def startThinkingBlock (s : MState) (i : Int) : MState :=
  pushEvent s (SseEvent.blockStart i ContentBlock.thinking)

def stopCurrentBlock (s : MState) : MState :=
  pushEvent s (SseEvent.blockStop s.currentIndex)

def isTextOrThinking : Option BlockKind → Bool
  | some BlockKind.text => true
  | some BlockKind.thinking => true
  | _ => false

/-- `switchBlockType(nextType)`. -/
def switchBlockType (s : MState) (next : BlockKind) : MState :=
  if s.currentBlockType = some next then s
  else
    let s1 := if isTextOrThinking s.currentBlockType then stopCurrentBlock s else s
    let s2 := { s1 with currentIndex := s1.currentIndex + 1, currentBlockType := some next }
    match next with
    | BlockKind.text => startTextBlock s2 s2.currentIndex
    | BlockKind.thinking => startThinkingBlock s2 s2.currentIndex
    | BlockKind.toolUse => s2

/-- `canStartThinkingBlock(_hasSignature)`; the parameter is unused in the
source as well. -/
def canStartThinkingBlock (cfg : StreamConfig) (s : MState) (hasSignature : Bool) : Bool :=
  if cfg.isAntigravityVendor && (wantsThinkingBlockFirst cfg && s.emittedAnyToolUse) then
    false
  else if s.currentIndex < 0 then true
  else if s.currentBlockType = some BlockKind.thinking then true
  else if !s.emittedThinking.isEmpty || !s.emittedThoughtSignature.isEmpty then true
  else
    let _ := hasSignature
    false

/-- The argument fixup and `args || {}` fallback at the top of
`emitToolUseBlock`.  `remapFunctionCallArgs` runs on (truthy) objects; a
non-object array argument would receive only phantom properties invisible to
`stableJsonStringify`, so skipping the remap there is observationally equal. -/
def emitArgs (name : String) (args : Option Json) : Json :=
  match args with
  | some (Json.obj fields) => Json.obj (remapFunctionCallArgs name fields)
  | some j => if jsTruthy j then j else Json.obj []
  | none => Json.obj []

/-- `emitToolUseBlock(name, args, id)`. -/
def emitToolUseBlock (cfg : StreamConfig) (s : MState) (name : String)
    (args : Option Json) (id : Option String) : MState :=
  let argsJ := emitArgs name args
  let idPair : String × MState :=
    match id with
    | some i =>
      if !i.isEmpty then (i, s)
      else (cfg.genId s.idCounter, { s with idCounter := s.idCounter + 1 })
    | none => (cfg.genId s.idCounter, { s with idCounter := s.idCounter + 1 })
  let toolUseId := idPair.1
  let s0 := idPair.2
  let jsonArgs := stableJsonStringify argsJ
  let toolIndex := s0.currentIndex + 1
  let s1 := { s0 with currentIndex := toolIndex }
  let s2 := pushEvent s1 (SseEvent.blockStart toolIndex (ContentBlock.toolUse toolUseId name))
  let s3 := pushEvent s2 (SseEvent.blockDelta toolIndex (DeltaPayload.inputJsonDelta jsonArgs))
  let s4 := pushEvent s3 (SseEvent.blockStop toolIndex)
  { s4 with emittedAnyToolUse := true, currentBlockType := none }

/-- The guard pattern `if (currentBlockType === 'text' || currentBlockType ===
'thinking') stopCurrentBlock()` used before tool emission and in `finalize`. -/
def stopIfOpen (s : MState) : MState :=
  if isTextOrThinking s.currentBlockType then stopCurrentBlock s else s

/-- `resolveFunctionCallArgs(functionCall)` (a present `GFunctionCall` is
always a truthy object). -/
def resolveFunctionCallArgs (jparse : String → Option Json) (fc : GFunctionCall) :
    Option Json × String × Bool :=
  let canContinue := fc.willContinue
  match fc.rawArgs with
  | some (Json.obj fields) => (some (Json.obj fields), "", canContinue)
  | raw =>
    let json : String :=
      match raw with
      | some (Json.str s) => s
      | some Json.null => ""
      | none => ""
      | some j => jsToString j
    if json.isEmpty then (none, "", canContinue)
    else
      match jparse json with
      | some (Json.obj fields) => (some (Json.obj fields), "", canContinue)
      | _ => (none, json, canContinue)

/-- An action produced by the MCP XML bridge. -/
inductive McpAction where
  | text (t : String)
  | tool (name : String) (args : Json)

def MAX_MCP_BUFFER_CHARS : Nat := 65536

/-- `appendToBuffer(s)` (closure over `actions`, `mcpXmlBuffer`, `inMcpXml`). -/
def appendMcpBuffer (acc : List McpAction) (buf : String) (inM : Bool) (s : String) :
    List McpAction × String × Bool :=
  if s.isEmpty then (acc, buf, inM)
  else
    let b := buf ++ s
    if b.data.length > MAX_MCP_BUFFER_CHARS then (acc ++ [McpAction.text b], "", false)
    else (acc, b, inM)

/-- The `while (inMcpXml && mcpXmlBuffer)` loop of `processMcpXmlBridgeDelta`.
Each looping iteration strictly shortens the buffer, so a fuel of
`buffer.length + 1` is never exhausted. -/
def mcpLoop (jparse : String → Option Json) :
    Nat → List McpAction → String → Bool → List McpAction × String × Bool
  | 0, acc, buf, inM => (acc, buf, inM)
  | Nat.succ fuel, acc, buf, inM =>
    if !(inM && !buf.isEmpty) then (acc, buf, inM)
    else
      match findSubIdx buf.data "<mcp__".data with
      | none => (acc ++ [McpAction.text buf], "", false)
      | some startIdx =>
        let acc2 := if startIdx > 0 then acc ++ [McpAction.text ⟨buf.data.take startIdx⟩] else acc
        let buf2 : String := ⟨buf.data.drop startIdx⟩
        match findSubIdx buf2.data ['>'] with
        | none => (acc2, buf2, true)
        | some tagEnd =>
          let toolName : String := ⟨(buf2.data.drop 1).take (tagEnd - 1)⟩
          let endTag := "</" ++ toolName ++ ">"
          match (findSubIdx (buf2.data.drop (tagEnd + 1)) endTag.data).map (· + (tagEnd + 1)) with
          | none => (acc2, buf2, true)
          | some closeIdx =>
            let inputStr := trimChars ⟨(buf2.data.drop (tagEnd + 1)).take (closeIdx - (tagEnd + 1))⟩
            let input :=
              if inputStr.isEmpty then Json.obj []
              else
                match jparse inputStr with
                | some j => j
                | none => Json.obj [("input", Json.str inputStr)]
            let acc3 := acc2 ++ [McpAction.tool toolName input]
            let afterClose := closeIdx + endTag.data.length
            let buf3 : String := ⟨buf2.data.drop afterClose⟩
            let inM3 := containsSub buf3 "<mcp__"
            if buf3.isEmpty then (acc3, buf3, false)
            else mcpLoop jparse fuel acc3 buf3 inM3

/-- `processMcpXmlBridgeDelta(deltaText)`, explicit in the buffered state. -/
def processMcpXmlBridgeDelta (jparse : String → Option Json) (buf : String)
    (inM : Bool) (deltaText : String) : List McpAction × String × Bool :=
  if deltaText.isEmpty then ([], buf, inM)
  else if !inM then
    match findSubIdx deltaText.data "<mcp__".data with
    | none => ([McpAction.text deltaText], buf, inM)
    | some startIdx =>
      let pre : String := ⟨deltaText.data.take startIdx⟩
      let acc := if pre.isEmpty then [] else [McpAction.text pre]
      let r := appendMcpBuffer acc buf true ⟨deltaText.data.drop startIdx⟩
      mcpLoop jparse (r.2.1.data.length + 1) r.1 r.2.1 r.2.2
  else
    let r := appendMcpBuffer [] buf true deltaText
    mcpLoop jparse (r.2.1.data.length + 1) r.1 r.2.1 r.2.2

/-- The emitting tail of `flushPendingToolCallById` (deduplication key,
block close, tool_use emission, map removal). -/
def flushEmit (cfg : StreamConfig) (s : MState) (id : String) (nm : String)
    (a : Json) : MState :=
  if s.emittedToolCallKeys.contains ("id:" ++ id) then
    { s with pendingToolCallsById := mapDelete s.pendingToolCallsById id }
  else
    let sA := { s with emittedToolCallKeys := s.emittedToolCallKeys ++ ["id:" ++ id] }
    let sB := stopIfOpen sA
    let sC := { sB with currentBlockType := some BlockKind.toolUse }
    let sD := emitToolUseBlock cfg sC nm (some a) (some id)
    { sD with pendingToolCallsById := mapDelete sD.pendingToolCallsById id }

/-- The lazy `argsJson` parse at the top of `flushPendingToolCallById`
(mutating the entry held by the map). -/
def flushResolve (jparse : String → Option Json) (p0 : PendingCall) : PendingCall :=
  if p0.args.isNone && !p0.argsJson.isEmpty then
    match jparse p0.argsJson with
    | some (Json.obj fields) => { p0 with args := some (Json.obj fields), argsJson := "" }
    | _ => p0
  else p0

/-- The argument resolution of `flushPendingToolCallById` (`\x7b\x7d` under
`force`, otherwise keep waiting). -/
def flushArgsFinal (p1 : PendingCall) (force : Bool) : Option Json :=
  match p1.args with
  | some a => some a
  | none => if force then some (Json.obj []) else none

/-- `flushPendingToolCallById(id, {force})`. -/
def flushPendingToolCallById (cfg : StreamConfig) (s : MState) (id : String)
    (force : Bool) : MState :=
  match mapGet s.pendingToolCallsById id with
  | none => s
  | some pending0 =>
    if pending0.name.isEmpty then s
    else
      match flushArgsFinal (flushResolve cfg.jparse pending0) force with
      | none =>
        { s with
          pendingToolCallsById :=
            mapSet s.pendingToolCallsById id (flushResolve cfg.jparse pending0) }
      | some a =>
        flushEmit cfg
          { s with
            pendingToolCallsById :=
              mapSet s.pendingToolCallsById id (flushResolve cfg.jparse pending0) }
          id (flushResolve cfg.jparse pending0).name a

/-- The incremental-delta computation of the thinking and text emission
sites (`full.startsWith(emitted) ? full.slice(emitted.length) : full`). -/
def textDeltaFrom (emitted full : String) : String :=
  if startsWithChars full emitted then dropChars full emitted.data.length
  else full

/-- The signature delta computation shared by both signature-emission sites. -/
def sigDeltaOf (emitted sig : String) : String :=
  if startsWithChars sig emitted then dropChars sig emitted.data.length
  else if sig ≠ emitted then sig
  else ""

/-- One signature-emission site (`thoughtSignature && canStartThinkingBlock(..)`). -/
def emitSignaturePhase (cfg : StreamConfig) (s : MState) (sig : String)
    (hasSigArg : Bool) : MState :=
  if !sig.isEmpty && canStartThinkingBlock cfg s hasSigArg then
    if (sigDeltaOf s.emittedThoughtSignature sig).isEmpty then s
    else
      { pushEvent (switchBlockType s BlockKind.thinking)
          (SseEvent.blockDelta (switchBlockType s BlockKind.thinking).currentIndex
            (DeltaPayload.signatureDelta (sigDeltaOf s.emittedThoughtSignature sig)))
        with emittedThoughtSignature := sig }
  else s

/-- One thinking-emission site.  The `signatureCache.cacheSignature` call in
the second site is an external fire-and-forget side effect with no influence
on the emitted events and is not modelled. -/
def emitThinkingPhase (cfg : StreamConfig) (s : MState) (ft : String)
    (hasSigArg : Bool) : MState :=
  if !ft.isEmpty && canStartThinkingBlock cfg s hasSigArg then
    if (textDeltaFrom s.emittedThinking ft).isEmpty then s
    else
      pushEvent { switchBlockType s BlockKind.thinking with emittedThinking := ft }
        (SseEvent.blockDelta (switchBlockType s BlockKind.thinking).currentIndex
          (DeltaPayload.thinkingDelta (textDeltaFrom s.emittedThinking ft)))
  else s

/-- The no-id emission path of the function-call loop (dedup by
`name:stableJson` key, close open block, emit). -/
def emitNoIdToolCall (cfg : StreamConfig) (s : MState) (name : String)
    (finalArgs : Json) : MState :=
  if s.emittedToolCallKeys.contains (name ++ ":" ++ stableJsonStringify finalArgs) then s
  else
    let s1 := { s with emittedToolCallKeys :=
      s.emittedToolCallKeys ++ [name ++ ":" ++ stableJsonStringify finalArgs] }
    let s2 := stopIfOpen s1
    let s3 := { s2 with currentBlockType := some BlockKind.toolUse }
    emitToolUseBlock cfg s3 name (some finalArgs) none

/-- The pending-entry update of the function-call loop for an id-carrying
call. -/
def updatedPending (jparse : String → Option Json) (fc : GFunctionCall)
    (old : Option PendingCall) : PendingCall :=
  let name := fc.name.getD ""
  let pending1 := { old.getD ⟨name, none, ""⟩ with name := name }
  match (resolveFunctionCallArgs jparse fc).1 with
  | some a => { pending1 with args := some a, argsJson := "" }
  | none =>
    if (resolveFunctionCallArgs jparse fc).2.1.isEmpty then pending1
    else { pending1 with
      argsJson := pending1.argsJson ++ (resolveFunctionCallArgs jparse fc).2.1 }

/-- The `for (const part of parts)` function-call body of the data handler. -/
def processFunctionCallPart (cfg : StreamConfig) (s : MState) (part : GPart) : MState :=
  match part.functionCall with
  | none => s
  | some fc =>
    if (fc.name.getD "").isEmpty then s
    else
      match (match fc.id with
             | some i => if !i.isEmpty then some i else none
             | none => none) with
      | none =>
        emitNoIdToolCall cfg s (fc.name.getD "")
          ((resolveFunctionCallArgs cfg.jparse fc).1.getD (Json.obj []))
      | some idv =>
        if !(resolveFunctionCallArgs cfg.jparse fc).2.2 then
          flushPendingToolCallById cfg
            { s with
              pendingToolCallsById := mapSet s.pendingToolCallsById idv
                (updatedPending cfg.jparse fc (mapGet s.pendingToolCallsById idv)) }
            idv false
        else
          { s with
            pendingToolCallsById := mapSet s.pendingToolCallsById idv
              (updatedPending cfg.jparse fc (mapGet s.pendingToolCallsById idv)) }

/-- Processing of one MCP bridge action in the text-delta loop. -/
def processTextAction (cfg : StreamConfig) (s : MState) (a : McpAction) : MState :=
  match a with
  | McpAction.text t =>
    if t.isEmpty then s
    else
      let s1 := switchBlockType s BlockKind.text
      pushEvent s1 (SseEvent.blockDelta s1.currentIndex (DeltaPayload.textDelta t))
  | McpAction.tool n a =>
    let s1 := stopIfOpen s
    emitToolUseBlock cfg s1 n (some (if jsTruthy a then a else Json.obj [])) none

/-- The `usageMetadata`/`finishReason` bookkeeping at the top of the data
handler body. -/
def updateMeta (s : MState) (payload : GPayload) : MState :=
  let s1 :=
    match payload.usageMetadata with
    | some um => { s with usage := some um }
    | none => s
  match payload.finishReason with
  | some fr => if !fr.isEmpty then { s1 with finishReason := some fr } else s1
  | none => s1

/-- The text-delta tail of the data handler (MCP bridge + text block deltas). -/
def processTextPhase (cfg : StreamConfig) (s : MState) (fullText : String) : MState :=
  if fullText.isEmpty then s
  else if (textDeltaFrom s.emittedText fullText).isEmpty then s
  else
    { (processMcpXmlBridgeDelta cfg.jparse s.mcpXmlBuffer s.inMcpXml
        (textDeltaFrom s.emittedText fullText)).1.foldl (processTextAction cfg)
        { s with
          mcpXmlBuffer := (processMcpXmlBridgeDelta cfg.jparse s.mcpXmlBuffer s.inMcpXml
            (textDeltaFrom s.emittedText fullText)).2.1
          inMcpXml := (processMcpXmlBridgeDelta cfg.jparse s.mcpXmlBuffer s.inMcpXml
            (textDeltaFrom s.emittedText fullText)).2.2 }
      with emittedText := fullText }

/-- The body of the `data` handler for one parsed upstream payload. -/
def processChunk (cfg : StreamConfig) (s : MState) (payload : GPayload) : MState :=
  if s.finished then s
  else
    let s2 := updateMeta s payload
    let rawSig := extractGeminiThoughtSignature payload
    let sig :=
      if cfg.isAntigravityVendor then sanitizeThoughtSignatureForAntigravity rawSig
      else rawSig
    let s3 :=
      if wantsThinkingBlockFirst cfg then
        emitThinkingPhase cfg (emitSignaturePhase cfg s2 sig false)
          (extractGeminiThoughtText payload) false
      else s2
    let s4 := payload.parts.foldl (processFunctionCallPart cfg) s3
    let s5 := emitSignaturePhase cfg s4 sig true
    let s6 := emitThinkingPhase cfg s5 (extractGeminiThoughtText payload)
      (!sig.isEmpty || !s5.emittedThoughtSignature.isEmpty)
    processTextPhase cfg s6 (extractGeminiText payload)

def rescueFindToolUse (content : List RBlock) :
    Option (String × Option Json × Option String) :=
  match content.find? (fun b =>
      match b with
      | RBlock.toolUse n _ _ => !n.isEmpty
      | _ => false) with
  | some (RBlock.toolUse n i id) => some (n, i, id)
  | _ => none

def rescueTextOf (content : List RBlock) : String :=
  String.join ((content.filter (fun b =>
      match b with
      | RBlock.text t => !t.isEmpty
      | _ => false)).map (fun b =>
      match b with
      | RBlock.text t => t
      | _ => ""))

def emitRescuedToolUse (cfg : StreamConfig) (s : MState)
    (tu : String × Option Json × Option String) : MState :=
  let s1 := stopIfOpen s
  let s2 := { s1 with currentBlockType := some BlockKind.toolUse }
  emitToolUseBlock cfg s2 tu.1 tu.2.1 tu.2.2

/-- `if (nextUsageMetadata) usageMetadata = nextUsageMetadata` for the rescue
responses. -/
def rescueUsage (s : MState) (um : Option GUsage) : MState :=
  match um with
  | some u => { s with usage := some u }
  | none => s

/-- The forced (second) rescue attempt; the returned flag says whether the
rescue function returns right after it (tool emitted, or the call threw and
the surrounding `catch` swallowed the rest). -/
def forcedRescueStep (cfg : StreamConfig) (s : MState) : MState × Bool :=
  if cfg.plannedToolName.isSome && !s.forcedRescueAttempted then
    match cfg.rescue2 with
    | none =>
      ({ s with forcedRescueAttempted := true, rescueCalls := s.rescueCalls + 1 }, true)
    | some (um2, content2) =>
      match rescueFindToolUse content2 with
      | some tu =>
        (emitRescuedToolUse cfg
          (rescueUsage { s with
            forcedRescueAttempted := true
            rescueCalls := s.rescueCalls + 1 } um2) tu, true)
      | none =>
        (rescueUsage { s with
          forcedRescueAttempted := true
          rescueCalls := s.rescueCalls + 1 } um2, false)
  else (s, false)

/-- The rescued-text emission at the end of the rescue path. -/
def rescueTextEmit (s : MState) (t : String) : MState :=
  pushEvent { switchBlockType s BlockKind.text with emittedText := t }
    (SseEvent.blockDelta (switchBlockType s BlockKind.text).currentIndex
      (DeltaPayload.textDelta t))

/-- The part of the rescue following the first (plain) attempt when it found
no tool_use block: forced attempt, then text fallback. -/
def rescueTail (cfg : StreamConfig) (s : MState) (content : List RBlock) : MState :=
  if (forcedRescueStep cfg s).2 then (forcedRescueStep cfg s).1
  else if (forcedRescueStep cfg s).1.emittedText.isEmpty then
    if (rescueTextOf content).isEmpty then (forcedRescueStep cfg s).1
    else rescueTextEmit (forcedRescueStep cfg s).1 (rescueTextOf content)
  else (forcedRescueStep cfg s).1

/-- `tryRescueAfterMissingFinishReason()`. -/
def tryRescueAfterMissingFinishReason (cfg : StreamConfig) (s : MState) : MState :=
  if !cfg.isAntigravityVendor then s
  else if s.rescueAttempted then s
  else if s.emittedAnyToolUse then s
  else
    match cfg.rescue1 with
    | none => { s with rescueAttempted := true, rescueCalls := s.rescueCalls + 1 }
    | some (um, content) =>
      match rescueFindToolUse content with
      | some tu =>
        emitRescuedToolUse cfg
          (rescueUsage { s with
            rescueAttempted := true
            rescueCalls := s.rescueCalls + 1 } um) tu
      | none =>
        rescueTail cfg
          (rescueUsage { s with
            rescueAttempted := true
            rescueCalls := s.rescueCalls + 1 } um) content

/-- The closing `message_delta` + `message_stop` pair, preceded by the stop
of a still-open text/thinking block. -/
def emitFinalPair (s : MState) (reason : String) (outputTokens : Int) : MState :=
  let sA := stopIfOpen s
  let sB := pushEvent sA (SseEvent.messageDelta reason outputTokens)
  pushEvent sB SseEvent.messageStop

/-- The MCP-buffer downgrade at the top of `finalize`. -/
def flushMcpTail (s : MState) : MState :=
  let raw := s.mcpXmlBuffer
  let sA := { s with mcpXmlBuffer := "", inMcpXml := false }
  let sB := switchBlockType sA BlockKind.text
  pushEvent sB (SseEvent.blockDelta sB.currentIndex (DeltaPayload.textDelta raw))

def FALLBACK_STREAM_TEXT : String := "上游流式连接异常中断（无有效内容）。请重试。"

/-- The empty-response fallback text emission of `finalize`. -/
def fallbackEmit (s : MState) : MState :=
  let sA := switchBlockType s BlockKind.text
  let sB := { sA with emittedText := FALLBACK_STREAM_TEXT }
  pushEvent sB (SseEvent.blockDelta sB.currentIndex
    (DeltaPayload.textDelta FALLBACK_STREAM_TEXT))

/-- The forced flush of still-pending tool calls at the top of `finalize`. -/
def flushAllPending (cfg : StreamConfig) (s : MState) : MState :=
  (s.pendingToolCallsById.map (fun kv => kv.1)).foldl
    (fun st id => flushPendingToolCallById cfg st id true) s

/-- `finalize` up to and including the MCP-buffer downgrade. -/
def finalizePre (cfg : StreamConfig) (s : MState) : MState :=
  if !(flushAllPending cfg { s with finished := true }).mcpXmlBuffer.isEmpty then
    flushMcpTail (flushAllPending cfg { s with finished := true })
  else flushAllPending cfg { s with finished := true }

/-- The terminal-event part of `finalize` (usage recording and logging after
the terminal SSE events are external side effects and are not modelled). -/
def finalizeCore (cfg : StreamConfig) (s2 : MState) : MState :=
  match s2.finishReason with
  | none =>
    if !s2.emittedText.isEmpty || s2.emittedAnyToolUse || !s2.emittedThinking.isEmpty then
      emitFinalPair s2 (if s2.emittedAnyToolUse then "tool_use" else "end_turn")
        (resolveUsageOutputTokens s2.usage)
    else
      if !(tryRescueAfterMissingFinishReason cfg s2).emittedText.isEmpty
          || (tryRescueAfterMissingFinishReason cfg s2).emittedAnyToolUse
          || !(tryRescueAfterMissingFinishReason cfg s2).emittedThinking.isEmpty then
        emitFinalPair (tryRescueAfterMissingFinishReason cfg s2)
          (if (tryRescueAfterMissingFinishReason cfg s2).emittedAnyToolUse then "tool_use"
           else "end_turn")
          (resolveUsageOutputTokens (tryRescueAfterMissingFinishReason cfg s2).usage)
      else
        emitFinalPair (fallbackEmit (tryRescueAfterMissingFinishReason cfg s2))
          "end_turn" (resolveUsageOutputTokens s2.usage)
  | some fr =>
    emitFinalPair s2
      (if s2.emittedAnyToolUse then "tool_use"
       else mapGeminiFinishReasonToAnthropicStopReason (some fr))
      (resolveUsageOutputTokens s2.usage)

/-- `finalize()`. -/
def finalizeStream (cfg : StreamConfig) (s : MState) : MState :=
  if s.finished then s else finalizeCore cfg (finalizePre cfg s)

/-- Handler state right after the `message_start` write and the
`wantsThinkingBlockFirst` pre-start. -/
def initialState (cfg : StreamConfig) : MState :=
  let base : MState := {
    events := [SseEvent.messageStart]
    currentIndex := if wantsThinkingBlockFirst cfg then 0 else -1
    currentBlockType := if wantsThinkingBlockFirst cfg then some BlockKind.thinking else none
    emittedText := ""
    emittedThinking := ""
    emittedThoughtSignature := ""
    finishReason := none
    usage := none
    emittedAnyToolUse := false
    emittedToolCallKeys := []
    pendingToolCallsById := []
    mcpXmlBuffer := ""
    inMcpXml := false
    rescueAttempted := false
    forcedRescueAttempted := false
    rescueCalls := 0
    idCounter := 0
    finished := false }
  if wantsThinkingBlockFirst cfg then startThinkingBlock base 0 else base

/-- The whole stream translation: the upstream delivers `chunks` as parsed
SSE data payloads and then ends cleanly, upon which `finalize` runs. -/
def runStream (cfg : StreamConfig) (chunks : List GPayload) : MState :=
  finalizeStream cfg (chunks.foldl (processChunk cfg) (initialState cfg))

/-- The single upstream chunk of the C1 scenario: one part carrying only the
text `"Hello"`, no usage, no finish reason. -/
def helloChunk : GPayload :=
  { usageMetadata := none
    finishReason := none
    parts := [{ text := some "Hello", thought := false, thoughtSignature := none
                functionCall := none }] }

/-- The expected client-visible event sequence of the C1 scenario. -/
def helloEvents : List SseEvent :=
  [SseEvent.messageStart,
   SseEvent.blockStart 0 ContentBlock.text,
   SseEvent.blockDelta 0 (DeltaPayload.textDelta "Hello"),
   SseEvent.blockStop 0,
   SseEvent.messageDelta "end_turn" 0,
   SseEvent.messageStop]

set_option maxHeartbeats 3200000 in
/-- **C1**: when the backend stream delivers one chunk whose only part is
`{text:"Hello"}` and then ends cleanly without a `finishReason`, the
translator emits exactly `message_start`, `content_block_start` (text),
`content_block_delta` (`text_delta "Hello"`), `content_block_stop`,
`message_delta` (`stop_reason "end_turn"`) and `message_stop`, performing no
rescue call (the scenario has no thinking configured, i.e. the
thinking-block-first mode is off). -/
theorem c1_stream_hello (cfg : StreamConfig)
    (h : (cfg.isAntigravityVendor && cfg.includeThoughts) = false) :
    (runStream cfg [helloChunk]).events = helloEvents
      ∧ (runStream cfg [helloChunk]).rescueCalls = 0 := by
  obtain ⟨ag, inc, pl, jp, gid, r1, r2⟩ := cfg
  cases ag with
  | false =>
    cases inc with
    | false => exact ⟨rfl, rfl⟩
    | true => exact ⟨rfl, rfl⟩
  | true =>
    cases inc with
    | false => exact ⟨rfl, rfl⟩
    | true => exact Bool.noConfusion h

/-- A concrete configuration for the C1 witness. -/
def c1Config : StreamConfig :=
  { isAntigravityVendor := false
    includeThoughts := false
    plannedToolName := none
    jparse := fun _ => none
    genId := fun _ => ""
    rescue1 := none
    rescue2 := none }

set_option maxHeartbeats 3200000 in
theorem c1_stream_hello_witness :
    ((c1Config.isAntigravityVendor && c1Config.includeThoughts) = false)
      ∧ ((runStream c1Config [helloChunk]).events = helloEvents
        ∧ (runStream c1Config [helloChunk]).rescueCalls = 0) :=
  ⟨rfl, c1_stream_hello c1Config rfl⟩

/-- The single upstream chunk of the amended C3 scenario: one part whose only
payload is a `functionCall` naming `Grep` with args `{"query":"foo"}`. -/
def grepChunk : GPayload :=
  { usageMetadata := none
    finishReason := none
    parts := [{ text := none, thought := false, thoughtSignature := none
                functionCall := some
                  { name := some "Grep", id := none
                    rawArgs := some (Json.obj [("query", Json.str "foo")])
                    willContinue := false } }] }

/-- A concrete configuration for the C3 witness. -/
def c3Config : StreamConfig :=
  { isAntigravityVendor := false
    includeThoughts := false
    plannedToolName := none
    jparse := fun _ => none
    genId := fun n => "toolu_" ++ toString n
    rescue1 := none
    rescue2 := none }

set_option maxHeartbeats 3200000 in
/-- **C3 (amended).** For every streamed backend function call naming the tool
Grep (any capitalisation) with arguments `{"query":"foo"}`, the remapped input
equals `{"pattern":"foo","path":"."}` and contains no `"query"` key, with
rendered input JSON `{"path":".","pattern":"foo"}`; and in the stream
translation a backend chunk carrying exactly that function call makes the
handler emit a tool_use block whose `input_json_delta` is exactly that JSON
(the scenario has no thinking configured). -/
theorem c3_grep_query_remap_amended (name : String) (cfg : StreamConfig)
    (hname : toLowerChars name = "grep")
    (hcfg : (cfg.isAntigravityVendor && cfg.includeThoughts) = false) :
    remapFunctionCallArgs name [("query", Json.str "foo")]
      = [("pattern", Json.str "foo"), ("path", Json.str ".")]
    ∧ mapGet (remapFunctionCallArgs name [("query", Json.str "foo")]) "query" = none
    ∧ stableJsonStringify (.obj (remapFunctionCallArgs name [("query", Json.str "foo")]))
      = "\x7b\"path\":\".\",\"pattern\":\"foo\"\x7d"
    ∧ (runStream cfg [grepChunk]).events
      = [SseEvent.messageStart,
         SseEvent.blockStart 0 (ContentBlock.toolUse (cfg.genId 0) "Grep"),
         SseEvent.blockDelta 0
           (DeltaPayload.inputJsonDelta "\x7b\"path\":\".\",\"pattern\":\"foo\"\x7d"),
         SseEvent.blockStop 0,
         SseEvent.messageDelta "tool_use" 0,
         SseEvent.messageStop] := by
  have h123 : remapFunctionCallArgs name [("query", Json.str "foo")]
        = [("pattern", Json.str "foo"), ("path", Json.str ".")]
      ∧ mapGet (remapFunctionCallArgs name [("query", Json.str "foo")]) "query" = none
      ∧ stableJsonStringify (.obj (remapFunctionCallArgs name [("query", Json.str "foo")]))
        = "\x7b\"path\":\".\",\"pattern\":\"foo\"\x7d" := by
    unfold remapFunctionCallArgs
    rw [hname]
    exact ⟨rfl, rfl, rfl⟩
  refine ⟨h123.1, h123.2.1, h123.2.2, ?_⟩
  obtain ⟨ag, inc, pl, jp, gid, r1, r2⟩ := cfg
  cases ag with
  | false =>
    cases inc with
    | false => rfl
    | true => rfl
  | true =>
    cases inc with
    | false => rfl
    | true => exact Bool.noConfusion hcfg

set_option maxHeartbeats 3200000 in
/-- Witness for C3 (amended) at the concrete tool name `Grep` and a concrete
configuration. -/
theorem c3_grep_query_remap_amended_witness :
    (toLowerChars "Grep" = "grep")
    ∧ ((c3Config.isAntigravityVendor && c3Config.includeThoughts) = false)
    ∧ (remapFunctionCallArgs "Grep" [("query", Json.str "foo")]
        = [("pattern", Json.str "foo"), ("path", Json.str ".")]
      ∧ mapGet (remapFunctionCallArgs "Grep" [("query", Json.str "foo")]) "query" = none
      ∧ stableJsonStringify (.obj (remapFunctionCallArgs "Grep" [("query", Json.str "foo")]))
        = "\x7b\"path\":\".\",\"pattern\":\"foo\"\x7d"
      ∧ (runStream c3Config [grepChunk]).events
        = [SseEvent.messageStart,
           SseEvent.blockStart 0 (ContentBlock.toolUse (c3Config.genId 0) "Grep"),
           SseEvent.blockDelta 0
             (DeltaPayload.inputJsonDelta "\x7b\"path\":\".\",\"pattern\":\"foo\"\x7d"),
           SseEvent.blockStop 0,
           SseEvent.messageDelta "tool_use" 0,
           SseEvent.messageStop]) :=
  ⟨rfl, rfl, c3_grep_query_remap_amended "Grep" c3Config rfl rfl⟩

/-! ### C2: well-formedness automaton for content-block events -/

/-- Scanner state over a trace of SSE events: `last` is the largest index
ever started (`-1` initially), `openIdx` the currently open block. -/
structure BSt where
  last : Int
  openIdx : Option Int
  deriving DecidableEq

/-- One event of the well-formedness automaton: a `content_block_start` needs
a strictly larger fresh index and no open block, `content_block_delta` and
`content_block_stop` need an open block at their own index; message-level
events are transparent. -/
def stepBlock (st : BSt) (e : SseEvent) : Option BSt :=
  match e with
  | SseEvent.blockStart i _ =>
    match st.openIdx with
    | none => if st.last < i then some ⟨i, some i⟩ else none
    | some _ => none
  | SseEvent.blockDelta i _ => if st.openIdx = some i then some st else none
  | SseEvent.blockStop i => if st.openIdx = some i then some ⟨st.last, none⟩ else none
  | _ => some st

def scanFrom (st : BSt) : List SseEvent → Option BSt
  | [] => some st
  | e :: es =>
    match stepBlock st e with
    | none => none
    | some st2 => scanFrom st2 es

theorem scanFrom_append (st : BSt) (es fs : List SseEvent) :
    scanFrom st (es ++ fs)
      = (scanFrom st es).bind (fun m => scanFrom m fs) := by
  induction es generalizing st with
  | nil => rfl
  | cons e es ih =>
    show (match stepBlock st e with
          | none => none
          | some st2 => scanFrom st2 (es ++ fs))
        = (scanFrom st (e :: es)).bind (fun m => scanFrom m fs)
    rw [show scanFrom st (e :: es)
        = (match stepBlock st e with
           | none => none
           | some st2 => scanFrom st2 es) from rfl]
    cases stepBlock st e with
    | none => rfl
    | some st2 => exact ih st2

/-- The index the event trace should currently have open, read off the
machine state. -/
def openOf (s : MState) : Option Int :=
  if isTextOrThinking s.currentBlockType then some s.currentIndex else none

/-- Coupling invariant between machine state and the automaton state of its
own emitted trace. -/
def Coupled (s : MState) : Prop :=
  scanFrom ⟨-1, none⟩ s.events = some ⟨s.currentIndex, openOf s⟩

theorem openOf_open {s : MState} (h : isTextOrThinking s.currentBlockType = true) :
    openOf s = some s.currentIndex := by
  unfold openOf
  rw [h]
  rfl

theorem openOf_closed {s : MState} (h : isTextOrThinking s.currentBlockType = false) :
    openOf s = none := by
  unfold openOf
  rw [h]
  rfl

theorem coupled_congr (s : MState) {s2 : MState} (he : s2.events = s.events)
    (hi : s2.currentIndex = s.currentIndex)
    (hb : s2.currentBlockType = s.currentBlockType) (h : Coupled s) : Coupled s2 := by
  unfold Coupled openOf at h ⊢
  rw [he, hi, hb]
  exact h

theorem scanFrom_singleton (st : BSt) (e : SseEvent) :
    scanFrom st [e] = stepBlock st e := by
  show (match stepBlock st e with
        | none => none
        | some st2 => scanFrom st2 []) = stepBlock st e
  cases stepBlock st e <;> rfl

/-- Appending an event the automaton passes through preserves the coupling. -/
theorem coupled_push_passthrough (s : MState) (e : SseEvent)
    (hp : ∀ st, stepBlock st e = some st) (h : Coupled s) : Coupled (pushEvent s e) := by
  show scanFrom ⟨-1, none⟩ (s.events ++ [e])
    = some ⟨(pushEvent s e).currentIndex, openOf (pushEvent s e)⟩
  rw [scanFrom_append,
    show scanFrom ⟨-1, none⟩ s.events = some ⟨s.currentIndex, openOf s⟩ from h]
  show scanFrom ⟨s.currentIndex, openOf s⟩ [e] = _
  rw [scanFrom_singleton, hp]
  rfl

/-- Appending a `content_block_delta` at the current index while a
text/thinking block is open preserves the coupling. -/
theorem coupled_push_delta (s : MState) (d : DeltaPayload)
    (hop : isTextOrThinking s.currentBlockType = true) (h : Coupled s) :
    Coupled (pushEvent s (SseEvent.blockDelta s.currentIndex d)) := by
  show scanFrom ⟨-1, none⟩ (s.events ++ [SseEvent.blockDelta s.currentIndex d])
    = some ⟨_, _⟩
  rw [scanFrom_append,
    show scanFrom ⟨-1, none⟩ s.events = some ⟨s.currentIndex, openOf s⟩ from h,
    openOf_open hop]
  show scanFrom ⟨s.currentIndex, some s.currentIndex⟩
      [SseEvent.blockDelta s.currentIndex d]
    = some ⟨(pushEvent s (SseEvent.blockDelta s.currentIndex d)).currentIndex,
            openOf (pushEvent s (SseEvent.blockDelta s.currentIndex d))⟩
  rw [scanFrom_singleton]
  show (if (some s.currentIndex = some s.currentIndex) then
      some (⟨s.currentIndex, some s.currentIndex⟩ : BSt) else none) = _
  rw [if_pos rfl]
  show _ = some ⟨s.currentIndex, openOf s⟩
  rw [openOf_open hop]

theorem switch_blockType_text (s : MState) :
    (switchBlockType s BlockKind.text).currentBlockType = some BlockKind.text := by
  unfold switchBlockType
  by_cases heq : s.currentBlockType = some BlockKind.text
  · rw [if_pos heq]
    exact heq
  · rw [if_neg heq]
    rfl

theorem switch_blockType_thinking (s : MState) :
    (switchBlockType s BlockKind.thinking).currentBlockType
      = some BlockKind.thinking := by
  unfold switchBlockType
  by_cases heq : s.currentBlockType = some BlockKind.thinking
  · rw [if_pos heq]
    exact heq
  · rw [if_neg heq]
    rfl

theorem coupled_switch_text (s : MState) (h : Coupled s) :
    Coupled (switchBlockType s BlockKind.text) := by
  unfold switchBlockType
  by_cases heq : s.currentBlockType = some BlockKind.text
  · rw [if_pos heq]
    exact h
  · rw [if_neg heq]
    by_cases hop : isTextOrThinking s.currentBlockType = true
    · rw [if_pos hop]
      show scanFrom ⟨-1, none⟩ ((s.events ++ [SseEvent.blockStop s.currentIndex])
          ++ [SseEvent.blockStart (s.currentIndex + 1) ContentBlock.text])
        = some ⟨s.currentIndex + 1, openOf _⟩
      rw [List.append_assoc, scanFrom_append,
        show scanFrom ⟨-1, none⟩ s.events = some ⟨s.currentIndex, openOf s⟩ from h,
        openOf_open hop]
      show scanFrom ⟨s.currentIndex, some s.currentIndex⟩
          [SseEvent.blockStop s.currentIndex,
           SseEvent.blockStart (s.currentIndex + 1) ContentBlock.text] = _
      simp [scanFrom, stepBlock, lt_add_one s.currentIndex, openOf,
        startTextBlock, pushEvent, isTextOrThinking, stopCurrentBlock]
    · rw [if_neg hop]
      have hcl : openOf s = none := openOf_closed (by simpa using hop)
      show scanFrom ⟨-1, none⟩
          (s.events ++ [SseEvent.blockStart (s.currentIndex + 1) ContentBlock.text])
        = some ⟨s.currentIndex + 1, openOf _⟩
      rw [scanFrom_append,
        show scanFrom ⟨-1, none⟩ s.events = some ⟨s.currentIndex, openOf s⟩ from h,
        hcl]
      show scanFrom ⟨s.currentIndex, none⟩
          [SseEvent.blockStart (s.currentIndex + 1) ContentBlock.text] = _
      rw [scanFrom_singleton]
      show (if s.currentIndex < s.currentIndex + 1 then
          some (⟨s.currentIndex + 1, some (s.currentIndex + 1)⟩ : BSt) else none) = _
      rw [if_pos (lt_add_one s.currentIndex)]
      rfl

theorem coupled_switch_thinking (s : MState) (h : Coupled s) :
    Coupled (switchBlockType s BlockKind.thinking) := by
  unfold switchBlockType
  by_cases heq : s.currentBlockType = some BlockKind.thinking
  · rw [if_pos heq]
    exact h
  · rw [if_neg heq]
    by_cases hop : isTextOrThinking s.currentBlockType = true
    · rw [if_pos hop]
      show scanFrom ⟨-1, none⟩ ((s.events ++ [SseEvent.blockStop s.currentIndex])
          ++ [SseEvent.blockStart (s.currentIndex + 1) ContentBlock.thinking])
        = some ⟨s.currentIndex + 1, openOf _⟩
      rw [List.append_assoc, scanFrom_append,
        show scanFrom ⟨-1, none⟩ s.events = some ⟨s.currentIndex, openOf s⟩ from h,
        openOf_open hop]
      show scanFrom ⟨s.currentIndex, some s.currentIndex⟩
          [SseEvent.blockStop s.currentIndex,
           SseEvent.blockStart (s.currentIndex + 1) ContentBlock.thinking] = _
      simp [scanFrom, stepBlock, lt_add_one s.currentIndex, openOf,
        startThinkingBlock, pushEvent, isTextOrThinking, stopCurrentBlock]
    · rw [if_neg hop]
      have hcl : openOf s = none := openOf_closed (by simpa using hop)
      show scanFrom ⟨-1, none⟩
          (s.events ++ [SseEvent.blockStart (s.currentIndex + 1) ContentBlock.thinking])
        = some ⟨s.currentIndex + 1, openOf _⟩
      rw [scanFrom_append,
        show scanFrom ⟨-1, none⟩ s.events = some ⟨s.currentIndex, openOf s⟩ from h,
        hcl]
      show scanFrom ⟨s.currentIndex, none⟩
          [SseEvent.blockStart (s.currentIndex + 1) ContentBlock.thinking] = _
      rw [scanFrom_singleton]
      show (if s.currentIndex < s.currentIndex + 1 then
          some (⟨s.currentIndex + 1, some (s.currentIndex + 1)⟩ : BSt) else none) = _
      rw [if_pos (lt_add_one s.currentIndex)]
      rfl

/-- After `stopIfOpen` the emitted trace scans to a closed automaton state at
the machine's current index (the stale `currentBlockType` notwithstanding). -/
theorem stopIfOpen_scanNone (s : MState) (h : Coupled s) :
    scanFrom ⟨-1, none⟩ (stopIfOpen s).events
      = some ⟨(stopIfOpen s).currentIndex, none⟩ := by
  unfold stopIfOpen
  by_cases hop : isTextOrThinking s.currentBlockType = true
  · rw [if_pos hop]
    show scanFrom ⟨-1, none⟩ (s.events ++ [SseEvent.blockStop s.currentIndex])
      = some ⟨s.currentIndex, none⟩
    rw [scanFrom_append,
      show scanFrom ⟨-1, none⟩ s.events = some ⟨s.currentIndex, openOf s⟩ from h,
      openOf_open hop]
    show scanFrom ⟨s.currentIndex, some s.currentIndex⟩
        [SseEvent.blockStop s.currentIndex] = _
    rw [scanFrom_singleton]
    show (if (some s.currentIndex = some s.currentIndex) then
        some (⟨s.currentIndex, none⟩ : BSt) else none) = _
    rw [if_pos rfl]
  · rw [if_neg hop]
    have hcl : openOf s = none := openOf_closed (by simpa using hop)
    rw [show scanFrom ⟨-1, none⟩ s.events = some ⟨s.currentIndex, openOf s⟩ from h, hcl]

/-- Core of `emitToolUseBlock`: appending `start`/`delta`/`stop` at the next
index restores the coupling when the trace is closed. -/
theorem emit_core (s0 : MState) (tid nm jargs : String)
    (hscan : scanFrom ⟨-1, none⟩ s0.events = some ⟨s0.currentIndex, none⟩) :
    Coupled { (pushEvent (pushEvent (pushEvent
        { s0 with currentIndex := s0.currentIndex + 1 }
        (SseEvent.blockStart (s0.currentIndex + 1) (ContentBlock.toolUse tid nm)))
        (SseEvent.blockDelta (s0.currentIndex + 1) (DeltaPayload.inputJsonDelta jargs)))
        (SseEvent.blockStop (s0.currentIndex + 1)))
      with emittedAnyToolUse := true, currentBlockType := none } := by
  show scanFrom ⟨-1, none⟩
      (((s0.events ++ [SseEvent.blockStart (s0.currentIndex + 1)
          (ContentBlock.toolUse tid nm)])
        ++ [SseEvent.blockDelta (s0.currentIndex + 1) (DeltaPayload.inputJsonDelta jargs)])
        ++ [SseEvent.blockStop (s0.currentIndex + 1)])
    = some ⟨s0.currentIndex + 1, none⟩
  rw [List.append_assoc, List.append_assoc, scanFrom_append, hscan]
  show scanFrom ⟨s0.currentIndex, none⟩
      [SseEvent.blockStart (s0.currentIndex + 1) (ContentBlock.toolUse tid nm),
       SseEvent.blockDelta (s0.currentIndex + 1) (DeltaPayload.inputJsonDelta jargs),
       SseEvent.blockStop (s0.currentIndex + 1)]
    = some ⟨s0.currentIndex + 1, none⟩
  simp [scanFrom, stepBlock, lt_add_one s0.currentIndex]

/-- `emitToolUseBlock` restores the coupling whenever its callers have closed
the open block beforehand. -/
theorem coupled_emit (cfg : StreamConfig) (s : MState) (name : String)
    (args : Option Json) (id : Option String)
    (hscan : scanFrom ⟨-1, none⟩ s.events = some ⟨s.currentIndex, none⟩) :
    Coupled (emitToolUseBlock cfg s name args id) := by
  unfold emitToolUseBlock
  cases id with
  | none =>
    exact emit_core { s with idCounter := s.idCounter + 1 } (cfg.genId s.idCounter)
      name (stableJsonStringify (emitArgs name args)) hscan
  | some i =>
    cases hi : i.isEmpty with
    | true =>
      have hni : (!i.isEmpty) = false := by rw [hi]; rfl
      simp only [hni, Bool.false_eq_true, if_false]
      exact emit_core { s with idCounter := s.idCounter + 1 } (cfg.genId s.idCounter)
        name (stableJsonStringify (emitArgs name args)) hscan
    | false =>
      have hni : (!i.isEmpty) = true := by rw [hi]; rfl
      simp only [hni, if_true]
      exact emit_core s i name (stableJsonStringify (emitArgs name args)) hscan

theorem stopIfOpen_currentIndex (s : MState) :
    (stopIfOpen s).currentIndex = s.currentIndex := by
  unfold stopIfOpen
  by_cases hop : isTextOrThinking s.currentBlockType = true
  · rw [if_pos hop]
    rfl
  · rw [if_neg hop]

/-- `flushEmit` preserves the coupling. -/
theorem coupled_flushEmit (cfg : StreamConfig) (s : MState) (id : String)
    (nm : String) (a : Json) (h : Coupled s) : Coupled (flushEmit cfg s id nm a) := by
  unfold flushEmit
  split
  · exact coupled_congr s rfl rfl rfl h
  · refine coupled_congr (emitToolUseBlock cfg
      { stopIfOpen { s with emittedToolCallKeys := s.emittedToolCallKeys ++ ["id:" ++ id] }
        with currentBlockType := some BlockKind.toolUse } nm (some a) (some id))
      rfl rfl rfl ?_
    refine coupled_emit cfg _ _ _ _ ?_
    exact stopIfOpen_scanNone
      { s with emittedToolCallKeys := s.emittedToolCallKeys ++ ["id:" ++ id] }
      (coupled_congr s rfl rfl rfl h)

/-- `flushPendingToolCallById` preserves the coupling. -/
theorem coupled_flush (cfg : StreamConfig) (s : MState) (id : String) (force : Bool)
    (h : Coupled s) : Coupled (flushPendingToolCallById cfg s id force) := by
  unfold flushPendingToolCallById
  split
  · exact h
  · split
    · exact h
    · split
      · exact coupled_congr s rfl rfl rfl h
      · exact coupled_flushEmit _ _ _ _ _ (coupled_congr s rfl rfl rfl h)

theorem coupled_foldl {α : Type} (f : MState → α → MState)
    (hf : ∀ s a, Coupled s → Coupled (f s a)) :
    ∀ (l : List α) (s : MState), Coupled s → Coupled (List.foldl f s l)
  | [], _, h => h
  | a :: l, s, h => coupled_foldl f hf l (f s a) (hf s a h)

theorem coupled_emitNoId (cfg : StreamConfig) (s : MState) (name : String)
    (finalArgs : Json) (h : Coupled s) :
    Coupled (emitNoIdToolCall cfg s name finalArgs) := by
  unfold emitNoIdToolCall
  split
  · exact h
  · exact coupled_emit _ _ _ _ _ (stopIfOpen_scanNone
      { s with emittedToolCallKeys :=
        s.emittedToolCallKeys ++ [name ++ ":" ++ stableJsonStringify finalArgs] }
      (coupled_congr s rfl rfl rfl h))

theorem coupled_fcPart (cfg : StreamConfig) (s : MState) (part : GPart)
    (h : Coupled s) : Coupled (processFunctionCallPart cfg s part) := by
  unfold processFunctionCallPart
  split
  · exact h
  · split
    · exact h
    · split
      · exact coupled_emitNoId _ _ _ _ h
      · split
        · exact coupled_flush _ _ _ _ (coupled_congr s rfl rfl rfl h)
        · exact coupled_congr s rfl rfl rfl h

theorem coupled_textAction (cfg : StreamConfig) (s : MState) (a : McpAction)
    (h : Coupled s) : Coupled (processTextAction cfg s a) := by
  cases a with
  | text t =>
    show Coupled (if t.isEmpty then s else _)
    split
    · exact h
    · exact coupled_push_delta (switchBlockType s BlockKind.text)
        (DeltaPayload.textDelta t)
        (by rw [switch_blockType_text]; rfl)
        (coupled_switch_text s h)
  | tool n args =>
    exact coupled_emit _ _ _ _ _ (stopIfOpen_scanNone s h)

theorem coupled_sigPhase (cfg : StreamConfig) (s : MState) (sig : String)
    (b : Bool) (h : Coupled s) : Coupled (emitSignaturePhase cfg s sig b) := by
  unfold emitSignaturePhase
  split
  · split
    · exact h
    · exact coupled_congr
        (pushEvent (switchBlockType s BlockKind.thinking)
          (SseEvent.blockDelta (switchBlockType s BlockKind.thinking).currentIndex
            (DeltaPayload.signatureDelta (sigDeltaOf s.emittedThoughtSignature sig))))
        rfl rfl rfl
        (coupled_push_delta (switchBlockType s BlockKind.thinking)
          (DeltaPayload.signatureDelta (sigDeltaOf s.emittedThoughtSignature sig))
          (by rw [switch_blockType_thinking]; rfl)
          (coupled_switch_thinking s h))
  · exact h

theorem coupled_thinkPhase (cfg : StreamConfig) (s : MState) (ft : String)
    (b : Bool) (h : Coupled s) : Coupled (emitThinkingPhase cfg s ft b) := by
  unfold emitThinkingPhase
  split
  · split
    · exact h
    · exact coupled_push_delta
        { switchBlockType s BlockKind.thinking with emittedThinking := ft }
        (DeltaPayload.thinkingDelta (textDeltaFrom s.emittedThinking ft))
        (by
          rw [show ({ switchBlockType s BlockKind.thinking with emittedThinking := ft }
              : MState).currentBlockType
            = (switchBlockType s BlockKind.thinking).currentBlockType from rfl,
            switch_blockType_thinking]
          rfl)
        (coupled_congr (switchBlockType s BlockKind.thinking) rfl rfl rfl
          (coupled_switch_thinking s h))
  · exact h

theorem coupled_textPhase (cfg : StreamConfig) (s : MState) (fullText : String)
    (h : Coupled s) : Coupled (processTextPhase cfg s fullText) := by
  unfold processTextPhase
  split
  · exact h
  · split
    · exact h
    · refine coupled_congr
        ((processMcpXmlBridgeDelta cfg.jparse s.mcpXmlBuffer s.inMcpXml
          (textDeltaFrom s.emittedText fullText)).1.foldl (processTextAction cfg)
          { s with
            mcpXmlBuffer := (processMcpXmlBridgeDelta cfg.jparse s.mcpXmlBuffer
              s.inMcpXml (textDeltaFrom s.emittedText fullText)).2.1
            inMcpXml := (processMcpXmlBridgeDelta cfg.jparse s.mcpXmlBuffer
              s.inMcpXml (textDeltaFrom s.emittedText fullText)).2.2 })
        rfl rfl rfl ?_
      exact coupled_foldl _ (coupled_textAction cfg) _ _
        (coupled_congr s rfl rfl rfl h)

theorem coupled_updateMeta (s : MState) (payload : GPayload) (h : Coupled s) :
    Coupled (updateMeta s payload) := by
  unfold updateMeta
  cases payload.usageMetadata with
  | none =>
    cases payload.finishReason with
    | none => exact h
    | some fr =>
      show Coupled (if !fr.isEmpty then _ else _)
      split
      · exact coupled_congr s rfl rfl rfl h
      · exact h
  | some um =>
    cases payload.finishReason with
    | none => exact coupled_congr s rfl rfl rfl h
    | some fr =>
      show Coupled (if !fr.isEmpty then _ else _)
      split
      · exact coupled_congr s rfl rfl rfl h
      · exact coupled_congr s rfl rfl rfl h

/-- The data handler preserves the coupling. -/
theorem coupled_processChunk (cfg : StreamConfig) (s : MState) (payload : GPayload)
    (h : Coupled s) : Coupled (processChunk cfg s payload) := by
  unfold processChunk
  split
  · exact h
  · refine coupled_textPhase _ _ _ ?_
    refine coupled_thinkPhase _ _ _ _ ?_
    refine coupled_sigPhase _ _ _ _ ?_
    refine coupled_foldl _ (fun st p hc => coupled_fcPart cfg st p hc) _ _ ?_
    split
    · exact coupled_thinkPhase _ _ _ _
        (coupled_sigPhase _ _ _ _ (coupled_updateMeta _ _ h))
    · exact coupled_updateMeta _ _ h

theorem coupled_rescueUsage (s : MState) (um : Option GUsage) (h : Coupled s) :
    Coupled (rescueUsage s um) := by
  cases um with
  | none => exact h
  | some u => exact coupled_congr s rfl rfl rfl h

theorem coupled_emitRescued (cfg : StreamConfig) (s : MState)
    (tu : String × Option Json × Option String) (h : Coupled s) :
    Coupled (emitRescuedToolUse cfg s tu) := by
  unfold emitRescuedToolUse
  exact coupled_emit _ _ _ _ _ (stopIfOpen_scanNone s h)

theorem coupled_forcedStep (cfg : StreamConfig) (s : MState) (h : Coupled s) :
    Coupled (forcedRescueStep cfg s).1 := by
  unfold forcedRescueStep
  split
  · cases hr : cfg.rescue2 with
    | none => exact coupled_congr s rfl rfl rfl h
    | some pr =>
      obtain ⟨um2, content2⟩ := pr
      dsimp only
      cases hf : rescueFindToolUse content2 with
      | some tu =>
        exact coupled_emitRescued _ _ _
          (coupled_rescueUsage _ _ (coupled_congr s rfl rfl rfl h))
      | none =>
        exact coupled_rescueUsage _ _ (coupled_congr s rfl rfl rfl h)
  · exact h

theorem coupled_rescueTextEmit (s : MState) (t : String) (h : Coupled s) :
    Coupled (rescueTextEmit s t) := by
  unfold rescueTextEmit
  exact coupled_push_delta { switchBlockType s BlockKind.text with emittedText := t }
    (DeltaPayload.textDelta t)
    (by
      rw [show ({ switchBlockType s BlockKind.text with emittedText := t }
          : MState).currentBlockType
        = (switchBlockType s BlockKind.text).currentBlockType from rfl,
        switch_blockType_text]
      rfl)
    (coupled_congr (switchBlockType s BlockKind.text) rfl rfl rfl
      (coupled_switch_text s h))

theorem coupled_rescueTail (cfg : StreamConfig) (s : MState) (content : List RBlock)
    (h : Coupled s) : Coupled (rescueTail cfg s content) := by
  unfold rescueTail
  split
  · exact coupled_forcedStep cfg s h
  · split
    · split
      · exact coupled_forcedStep cfg s h
      · exact coupled_rescueTextEmit _ _ (coupled_forcedStep cfg s h)
    · exact coupled_forcedStep cfg s h

theorem coupled_rescue (cfg : StreamConfig) (s : MState) (h : Coupled s) :
    Coupled (tryRescueAfterMissingFinishReason cfg s) := by
  unfold tryRescueAfterMissingFinishReason
  split
  · exact h
  · split
    · exact h
    · split
      · exact h
      · cases hr : cfg.rescue1 with
        | none => exact coupled_congr s rfl rfl rfl h
        | some pr =>
          obtain ⟨um, content⟩ := pr
          dsimp only
          cases hf : rescueFindToolUse content with
          | some tu =>
            exact coupled_emitRescued _ _ _
              (coupled_rescueUsage _ _ (coupled_congr s rfl rfl rfl h))
          | none =>
            exact coupled_rescueTail _ _ _
              (coupled_rescueUsage _ _ (coupled_congr s rfl rfl rfl h))

theorem coupled_flushMcpTail (s : MState) (h : Coupled s) :
    Coupled (flushMcpTail s) := by
  unfold flushMcpTail
  exact coupled_push_delta
    (switchBlockType { s with mcpXmlBuffer := "", inMcpXml := false } BlockKind.text)
    (DeltaPayload.textDelta s.mcpXmlBuffer)
    (by rw [switch_blockType_text]; rfl)
    (coupled_switch_text _ (coupled_congr s rfl rfl rfl h))

theorem coupled_fallbackEmit (s : MState) (h : Coupled s) :
    Coupled (fallbackEmit s) := by
  unfold fallbackEmit
  exact coupled_push_delta
    { switchBlockType s BlockKind.text with emittedText := FALLBACK_STREAM_TEXT }
    (DeltaPayload.textDelta FALLBACK_STREAM_TEXT)
    (by
      rw [show ({ switchBlockType s BlockKind.text with
          emittedText := FALLBACK_STREAM_TEXT } : MState).currentBlockType
        = (switchBlockType s BlockKind.text).currentBlockType from rfl,
        switch_blockType_text]
      rfl)
    (coupled_congr (switchBlockType s BlockKind.text) rfl rfl rfl
      (coupled_switch_text s h))

theorem coupled_flushAllPending (cfg : StreamConfig) (s : MState) (h : Coupled s) :
    Coupled (flushAllPending cfg s) := by
  unfold flushAllPending
  exact coupled_foldl _ (fun st id hc => coupled_flush cfg st id true hc) _ _ h

theorem coupled_finalizePre (cfg : StreamConfig) (s : MState) (h : Coupled s) :
    Coupled (finalizePre cfg s) := by
  unfold finalizePre
  split
  · exact coupled_flushMcpTail _
      (coupled_flushAllPending cfg _ (coupled_congr s rfl rfl rfl h))
  · exact coupled_flushAllPending cfg _ (coupled_congr s rfl rfl rfl h)

/-- The closing `message_delta`/`message_stop` pair leaves the trace in a
closed automaton state. -/
theorem emitFinalPair_scan (s : MState) (r : String) (o : Int) (h : Coupled s) :
    scanFrom ⟨-1, none⟩ (emitFinalPair s r o).events
      = some ⟨(stopIfOpen s).currentIndex, none⟩ := by
  show scanFrom ⟨-1, none⟩
      (((stopIfOpen s).events ++ [SseEvent.messageDelta r o]) ++ [SseEvent.messageStop])
    = some ⟨(stopIfOpen s).currentIndex, none⟩
  rw [List.append_assoc, scanFrom_append, stopIfOpen_scanNone s h]
  rfl

theorem finalizeCore_scan (cfg : StreamConfig) (s2 : MState) (h : Coupled s2) :
    ∃ last, scanFrom ⟨-1, none⟩ (finalizeCore cfg s2).events = some ⟨last, none⟩ := by
  unfold finalizeCore
  split
  · split
    · exact ⟨_, emitFinalPair_scan _ _ _ h⟩
    · split
      · exact ⟨_, emitFinalPair_scan _ _ _ (coupled_rescue cfg s2 h)⟩
      · exact ⟨_, emitFinalPair_scan _ _ _
          (coupled_fallbackEmit _ (coupled_rescue cfg s2 h))⟩
  · exact ⟨_, emitFinalPair_scan _ _ _ h⟩

theorem finalize_scan (cfg : StreamConfig) (s : MState) (h : Coupled s)
    (hfin : s.finished = false) :
    ∃ last, scanFrom ⟨-1, none⟩ (finalizeStream cfg s).events = some ⟨last, none⟩ := by
  unfold finalizeStream
  split
  · next hf =>
    rw [hf] at hfin
    exact Bool.noConfusion hfin
  · exact finalizeCore_scan cfg _ (coupled_finalizePre cfg s h)

theorem coupled_initial (cfg : StreamConfig) : Coupled (initialState cfg) := by
  unfold Coupled initialState
  cases hw : wantsThinkingBlockFirst cfg
  · rfl
  · rfl

theorem stopIfOpen_finished (s : MState) : (stopIfOpen s).finished = s.finished := by
  unfold stopIfOpen
  split <;> rfl

theorem switchBlockType_finished (s : MState) (k : BlockKind) :
    (switchBlockType s k).finished = s.finished := by
  unfold switchBlockType startTextBlock startThinkingBlock pushEvent stopCurrentBlock
  repeat' split
  all_goals rfl

theorem emitToolUseBlock_finished (cfg : StreamConfig) (s : MState) (nm : String)
    (a : Option Json) (i : Option String) :
    (emitToolUseBlock cfg s nm a i).finished = s.finished := by
  unfold emitToolUseBlock pushEvent
  repeat' split
  all_goals rfl

theorem flushEmit_finished (cfg : StreamConfig) (s : MState) (id : String)
    (nm : String) (a : Json) : (flushEmit cfg s id nm a).finished = s.finished := by
  unfold flushEmit
  split
  · rfl
  · show (emitToolUseBlock cfg
      { stopIfOpen { s with emittedToolCallKeys := s.emittedToolCallKeys ++ ["id:" ++ id] }
        with currentBlockType := some BlockKind.toolUse } nm (some a) (some id)).finished
      = s.finished
    rw [emitToolUseBlock_finished]
    show (stopIfOpen { s with
      emittedToolCallKeys := s.emittedToolCallKeys ++ ["id:" ++ id] }).finished = s.finished
    rw [stopIfOpen_finished]

theorem flush_finished (cfg : StreamConfig) (s : MState) (id : String) (force : Bool) :
    (flushPendingToolCallById cfg s id force).finished = s.finished := by
  unfold flushPendingToolCallById
  split
  · rfl
  · split
    · rfl
    · split
      · rfl
      · exact flushEmit_finished _ _ _ _ _

theorem emitNoId_finished (cfg : StreamConfig) (s : MState) (nm : String) (a : Json) :
    (emitNoIdToolCall cfg s nm a).finished = s.finished := by
  unfold emitNoIdToolCall
  split
  · rfl
  · show (emitToolUseBlock cfg
      { stopIfOpen { s with emittedToolCallKeys :=
          s.emittedToolCallKeys ++ [nm ++ ":" ++ stableJsonStringify a] }
        with currentBlockType := some BlockKind.toolUse } nm (some a) none).finished
      = s.finished
    rw [emitToolUseBlock_finished]
    show (stopIfOpen { s with emittedToolCallKeys :=
      s.emittedToolCallKeys ++ [nm ++ ":" ++ stableJsonStringify a] }).finished = s.finished
    rw [stopIfOpen_finished]

theorem foldl_finished {α : Type} (f : MState → α → MState)
    (hf : ∀ s a, (f s a).finished = s.finished) :
    ∀ (l : List α) (s : MState), (List.foldl f s l).finished = s.finished
  | [], _ => rfl
  | a :: l, s => (foldl_finished f hf l (f s a)).trans (hf s a)

theorem fcPart_finished (cfg : StreamConfig) (s : MState) (part : GPart) :
    (processFunctionCallPart cfg s part).finished = s.finished := by
  unfold processFunctionCallPart
  repeat' split
  all_goals
    first
      | rfl
      | exact emitNoId_finished _ _ _ _
      | exact flush_finished _ _ _ _

theorem textAction_finished (cfg : StreamConfig) (s : MState) (a : McpAction) :
    (processTextAction cfg s a).finished = s.finished := by
  cases a with
  | text t =>
    show (if t.isEmpty then s else _).finished = s.finished
    split
    · rfl
    · show (switchBlockType s BlockKind.text).finished = s.finished
      rw [switchBlockType_finished]
  | tool n args =>
    show (emitToolUseBlock cfg (stopIfOpen s) n
      (some (if jsTruthy args then args else Json.obj [])) none).finished = s.finished
    rw [emitToolUseBlock_finished, stopIfOpen_finished]

theorem sigPhase_finished (cfg : StreamConfig) (s : MState) (sig : String) (b : Bool) :
    (emitSignaturePhase cfg s sig b).finished = s.finished := by
  unfold emitSignaturePhase
  split
  · split
    · rfl
    · show (switchBlockType s BlockKind.thinking).finished = s.finished
      rw [switchBlockType_finished]
  · rfl

theorem thinkPhase_finished (cfg : StreamConfig) (s : MState) (ft : String) (b : Bool) :
    (emitThinkingPhase cfg s ft b).finished = s.finished := by
  unfold emitThinkingPhase
  split
  · split
    · rfl
    · show (switchBlockType s BlockKind.thinking).finished = s.finished
      rw [switchBlockType_finished]
  · rfl

theorem textPhase_finished (cfg : StreamConfig) (s : MState) (t : String) :
    (processTextPhase cfg s t).finished = s.finished := by
  unfold processTextPhase
  split
  · rfl
  · split
    · rfl
    · exact foldl_finished _ (fun st a => textAction_finished cfg st a) _ _

theorem updateMeta_finished (s : MState) (payload : GPayload) :
    (updateMeta s payload).finished = s.finished := by
  unfold updateMeta
  repeat' split
  all_goals rfl

theorem processChunk_finished (cfg : StreamConfig) (s : MState) (payload : GPayload) :
    (processChunk cfg s payload).finished = s.finished := by
  unfold processChunk
  split
  · rfl
  · rw [textPhase_finished, thinkPhase_finished, sigPhase_finished,
      foldl_finished (processFunctionCallPart cfg) (fun st p => fcPart_finished cfg st p)]
    split
    · rw [thinkPhase_finished, sigPhase_finished, updateMeta_finished]
    · rw [updateMeta_finished]

/-- **C2**: within one streaming response the content-block events are
well-formed: the acceptance automaton `stepBlock` — which demands that every
`content_block_start` use a strictly larger, never-before-used index while no
block is open, and that every `content_block_delta`/`content_block_stop`
address the currently open index — accepts the full emitted event trace of
any stream run, ending with no block left open.  Hence indices increase
strictly and are never reused, each index's events appear in
start → delta → stop order, and a block-type switch always stops the previous
block before starting the next. -/
theorem c2_stream_block_wellformed (cfg : StreamConfig) (chunks : List GPayload) :
    ∃ last, scanFrom ⟨-1, none⟩ (runStream cfg chunks).events = some ⟨last, none⟩ := by
  unfold runStream
  refine finalize_scan cfg _
    (coupled_foldl _ (fun st p hc => coupled_processChunk cfg st p hc) chunks
      (initialState cfg) (coupled_initial cfg)) ?_
  rw [foldl_finished (processChunk cfg) (fun st p => processChunk_finished cfg st p)]
  unfold initialState
  split <;> rfl

end Bridge
